import Mathlib

/-!
# Verification of the VOOG synthesizer audio core

Shallow embedding, over the reals, of the DSP core of the `voog` polyphonic
subtractive synthesizer (`synth/dsp/filter.py`, `synth/dsp/oscillator.py`,
`synth/dsp/envelope.py`, `synth/engine/audio_engine.py`), together with
theorems settling the specification claims about it.

Python floating-point numbers are modelled as real numbers; NumPy buffers as
lists or as functions from sample indices to reals; the `%` operator on
nonnegative floats as `Int.fract`; fallible indexing as `Option`.
-/

open Real

namespace Voog

/-- Modelled from the spec: the constant `SAMPLE_RATE` lives in
`synth/config.py`, which is not in the source tree; spec §3 gives 44100. -/
noncomputable def SAMPLE_RATE : ℝ := 44100

/-- Modelled from the spec: the constant `CONTROL_RATE_DIVIDER` lives in
`synth/config.py`, which is not in the source tree; spec §3 gives 16. -/
def CONTROL_RATE_DIVIDER : ℕ := 16

/-- Modelled from the spec: the constant `WAVETABLE_SIZE` lives in
`synth/config.py`, which is not in the source tree; spec §3 gives 2048. -/
def WAVETABLE_SIZE : ℕ := 2048

/-- Modelled from the spec: the constant `NUM_CHANNELS` lives in
`synth/config.py`, which is not in the source tree; spec §3 gives 4. -/
def NUM_CHANNELS : ℕ := 4

/-! ## Ladder filter (`synth/dsp/filter.py`)

The repository ships two Python backends of `_moog_ladder_process` (the C
extension is not in the tree): a Numba-JIT branch (lines 19–48) and a pure
Python branch (lines 50–78).  They differ only in how the per-sample cutoff
is turned into the prewarped frequency `f`. -/

/-- Four filter tap states `s0..s3` (the `state` array of the filter). -/
structure LadderState where
  s0 : ℝ
  s1 : ℝ
  s2 : ℝ
  s3 : ℝ

/-- The all-zero tap state. -/
noncomputable def LadderState.zero : LadderState := ⟨0, 0, 0, 0⟩

/-- The common per-sample tap update of both backends, given the prewarped
frequency `f`: computes `g`, `G`, `r`, the feedback estimate `S`, the input
`u`, runs the four one-pole taps, and returns the output together with the
updated taps.  Mirrors lines 28–45 (Numba) = lines 59–76 (pure Python). -/
noncomputable def ladderCore (sr res f x : ℝ) (s : LadderState) : ℝ × LadderState :=
  let g := f / (2 * sr)
  let G := g / (1 + g)
  let r := res * 4
  let S := G * G * G * s.s0 + G * G * s.s1 + G * s.s2 + s.s3
  let u := (x - r * S) / (1 + r * G * G * G * G)
  let v1 := (u - s.s0) * G
  let lp1 := v1 + s.s0
  let s0 := lp1 + v1
  let v2 := (lp1 - s.s1) * G
  let lp2 := v2 + s.s1
  let s1 := lp2 + v2
  let v3 := (lp2 - s.s2) * G
  let lp3 := v3 + s.s2
  let s2 := lp3 + v3
  let v4 := (lp3 - s.s3) * G
  let lp4 := v4 + s.s3
  let s3 := lp4 + v4
  (lp4, ⟨s0, s1, s2, s3⟩)

/-- One sample of the Numba-JIT backend (filter.py line 27):
`f = 2*sr*tan(pi*fc/sr) if fc < sr*0.49 else sr*0.49*2.0`. -/
noncomputable def numbaStep (sr res x fc : ℝ) (s : LadderState) : ℝ × LadderState :=
  let f := if fc < sr * 0.49 then 2 * sr * Real.tan (Real.pi * fc / sr) else sr * 0.49 * 2
  ladderCore sr res f x s

/-- One sample of the pure-Python backend (filter.py lines 57–58):
`fc = min(fc, sr*0.49); f = 2*sr*tan(pi*fc/sr)`. -/
noncomputable def pythonStep (sr res x fc : ℝ) (s : LadderState) : ℝ × LadderState :=
  let fc := min fc (sr * 0.49)
  let f := 2 * sr * Real.tan (Real.pi * fc / sr)
  ladderCore sr res f x s

/-- The Numba-JIT `_moog_ladder_process` over a buffer of
(sample, per-sample cutoff) pairs: the output buffer and the final taps. -/
noncomputable def numbaProcess (sr res : ℝ) :
    List (ℝ × ℝ) → LadderState → List ℝ × LadderState
  | [], s => ([], s)
  | p :: rest, s =>
      let r1 := numbaStep sr res p.1 p.2 s
      let r2 := numbaProcess sr res rest r1.2
      (r1.1 :: r2.1, r2.2)

/-- The pure-Python `_moog_ladder_process` over a buffer of
(sample, per-sample cutoff) pairs: the output buffer and the final taps. -/
noncomputable def pythonProcess (sr res : ℝ) :
    List (ℝ × ℝ) → LadderState → List ℝ × LadderState
  | [], s => ([], s)
  | p :: rest, s =>
      let r1 := pythonStep sr res p.1 p.2 s
      let r2 := pythonProcess sr res rest r1.2
      (r1.1 :: r2.1, r2.2)

/-- Below the Nyquist clamp the two backends take the same prewarp branch. -/
lemma step_eq_of_lt (sr res x fc : ℝ) (s : LadderState) (h : fc < sr * 0.49) :
    numbaStep sr res x fc s = pythonStep sr res x fc s := by
  unfold numbaStep pythonStep
  rw [if_pos h, min_eq_left h.le]

/-- `MoogFilter` (filter.py lines 81–109): parameter fields and taps.
`env_amount` and `key_tracking` are carried but not read by `render`. -/
structure MoogFilter where
  cutoff : ℝ := 8000
  resonance : ℝ := 0
  env_amount : ℝ := 0
  key_tracking : ℝ := 0
  state : LadderState := LadderState.zero

/-- NumPy's `np.clip(x, lo, hi)` for `lo ≤ hi`. -/
noncomputable def npClip (x lo hi : ℝ) : ℝ := min (max x lo) hi

/-- The per-sample cutoff buffer built by `MoogFilter.render`
(filter.py lines 95–98): with a modulation buffer, clip the sum to
`[20, SAMPLE_RATE*0.49]`; without one, a constant buffer of
`min(cutoff, SAMPLE_RATE*0.49)`. -/
noncomputable def cutoffBuffer (cutoff : ℝ) (mod : Option (ℕ → ℝ)) : ℕ → ℝ :=
  match mod with
  | some m => fun i => npClip (cutoff + m i) 20 (SAMPLE_RATE * 0.49)
  | none => fun _ => min cutoff (SAMPLE_RATE * 0.49)

/-- `MoogFilter.render` (filter.py lines 89–106), with the pure-Python
backend: zips the input buffer with the per-sample cutoff buffer and runs
the ladder from the current taps. -/
noncomputable def MoogFilter.render (flt : MoogFilter) (samples : List ℝ)
    (mod : Option (ℕ → ℝ)) : List ℝ × LadderState :=
  let buf := samples.zip ((List.range samples.length).map (cutoffBuffer flt.cutoff mod))
  pythonProcess SAMPLE_RATE flt.resonance buf flt.state

/-- Closed form of one `ladderCore` sample at zero resonance, unit input and
zero taps: the output is the fourth power of the one-pole coefficient `G`. -/
lemma ladderCore_fst_res_zero (sr f : ℝ) :
    (ladderCore sr 0 f 1 LadderState.zero).1 =
      (f / (2 * sr) / (1 + f / (2 * sr))) ^ 4 := by
  simp only [ladderCore, LadderState.zero]
  ring_nf

/-- Propagating an all-zero input through one pure-Python ladder sample from
zero taps yields a zero output and zero taps, for any cutoff. -/
lemma pythonStep_zero_input (sr res fc : ℝ) :
    pythonStep sr res 0 fc LadderState.zero = (0, LadderState.zero) := by
  simp only [pythonStep, ladderCore, LadderState.zero]
  norm_num [LadderState.zero]

/-- A buffer whose samples are all zero passes through the pure-Python ladder
unchanged: zero outputs and zero final taps. -/
lemma pythonProcess_zero_input (sr res : ℝ) (buf : List (ℝ × ℝ))
    (h : ∀ p ∈ buf, p.1 = 0) :
    pythonProcess sr res buf LadderState.zero =
      (List.replicate buf.length 0, LadderState.zero) := by
  induction buf with
  | nil => rfl
  | cons p rest ih =>
      have hp : p.1 = 0 := h p (List.mem_cons_self p rest)
      simp only [pythonProcess, hp, pythonStep_zero_input,
        ih fun q hq => h q (List.mem_cons_of_mem p hq), List.length_cons,
        List.replicate_succ]

/-- C1 (amended): for every input buffer whose per-sample cutoffs are all
strictly below the Nyquist clamp `sr * 0.49`, the Numba-JIT and the
pure-Python `_moog_ladder_process` return identical output samples and
identical final tap states.  (At a cutoff equal to `sr * 0.49` they differ;
see the counterexample below.) -/
theorem ladder_backends_agree_below_clamp (sr res : ℝ) (buf : List (ℝ × ℝ))
    (s : LadderState) (h : ∀ p ∈ buf, p.2 < sr * 0.49) :
    numbaProcess sr res buf s = pythonProcess sr res buf s := by
  induction buf generalizing s with
  | nil => rfl
  | cons p rest ih =>
      have hr : ∀ q ∈ rest, q.2 < sr * 0.49 := fun q hq => h q (List.mem_cons_of_mem p hq)
      simp only [numbaProcess, pythonProcess]
      rw [step_eq_of_lt sr res p.1 p.2 s (h p (List.mem_cons_self p rest)), ih _ hr]

/-- Witness for `ladder_backends_agree_below_clamp` at a concrete buffer. -/
theorem ladder_backends_agree_below_clamp_witness :
    (∀ p ∈ [((0 : ℝ), (100 : ℝ))], p.2 < 44100 * 0.49) ∧
      numbaProcess 44100 0 [((0 : ℝ), (100 : ℝ))] LadderState.zero =
        pythonProcess 44100 0 [((0 : ℝ), (100 : ℝ))] LadderState.zero := by
  refine ⟨by norm_num, ?_⟩
  exact ladder_backends_agree_below_clamp 44100 0 _ LadderState.zero (by norm_num)

/-- C1 (counterexample): at a per-sample cutoff exactly equal to the Nyquist
clamp `SAMPLE_RATE * 0.49`, the two backends disagree: on input 1 with zero
resonance and zero taps, the JIT branch bypasses the prewarp
(`f = sr * 0.49 * 2`, so `G = 0.49/1.49`) while the pure-Python branch
computes `f = 2 * sr * tan(0.49 * pi)` (so `G > 1/2`), and the outputs
differ. -/
theorem ladder_backends_differ_at_clamp :
    numbaProcess 44100 0 [((1 : ℝ), 44100 * 0.49)] LadderState.zero ≠
      pythonProcess 44100 0 [((1 : ℝ), 44100 * 0.49)] LadderState.zero := by
  intro heq
  have h1 : (numbaProcess 44100 0 [((1 : ℝ), 44100 * 0.49)] LadderState.zero).1 =
      (pythonProcess 44100 0 [((1 : ℝ), 44100 * 0.49)] LadderState.zero).1 := by
    rw [heq]
  simp only [numbaProcess, pythonProcess, numbaStep, pythonStep] at h1
  rw [if_neg (lt_irrefl (44100 * 0.49)), min_self] at h1
  rw [ladderCore_fst_res_zero, ladderCore_fst_res_zero] at h1
  simp only [List.cons.injEq, and_true] at h1
  set t := Real.tan (Real.pi * (44100 * 0.49) / 44100) with ht
  have htan : 1 < t := by
    rw [ht]
    have harg : Real.pi * (44100 * 0.49) / 44100 = 0.49 * Real.pi := by ring
    rw [harg, ← Real.tan_pi_div_four]
    apply Real.tan_lt_tan_of_nonneg_of_lt_pi_div_two
    · positivity
    · nlinarith [Real.pi_pos]
    · nlinarith [Real.pi_pos]
  have hcancel : (2 * 44100 * t / (2 * 44100) : ℝ) = t := by
    field_simp
  rw [hcancel] at h1
  have hnum : ((44100 * 0.49 * 2 / (2 * 44100) / (1 + 44100 * 0.49 * 2 / (2 * 44100))) : ℝ) =
      0.49 / 1.49 := by norm_num
  rw [hnum] at h1
  have hdenom : (0 : ℝ) < 1 + t := by linarith
  have hgt : (1 : ℝ) / 2 < t / (1 + t) := by
    rw [lt_div_iff₀ hdenom]
    linarith
  have hlt : ((0.49 : ℝ) / 1.49) ^ 4 < (t / (1 + t)) ^ 4 := by
    have h049 : ((0.49 : ℝ) / 1.49) < 1 / 2 := by norm_num
    have hnn : (0 : ℝ) ≤ 0.49 / 1.49 := by norm_num
    calc ((0.49 : ℝ) / 1.49) ^ 4 < (1 / 2 : ℝ) ^ 4 := by
            apply pow_lt_pow_left₀ h049 hnn
            norm_num
      _ < (t / (1 + t)) ^ 4 := by
            apply pow_lt_pow_left₀ hgt (by norm_num)
            norm_num
  exact absurd h1 (ne_of_lt hlt)

/-- C2 (counterexample): with the `cutoff` field set to 0 and no `cutoff_mod`
argument, the per-sample cutoff buffer handed to the ladder is constantly 0,
below the claimed lower clamp of 20. -/
theorem cutoff_buffer_below_20 : cutoffBuffer 0 none 0 < 20 := by
  simp only [cutoffBuffer, SAMPLE_RATE]
  norm_num

/-- C2 (amended): with a `cutoff_mod` argument every element of the
per-sample cutoff buffer is clamped into `[20, SAMPLE_RATE * 0.49]`; without
one, every element equals `min(cutoff, SAMPLE_RATE * 0.49)`, hence is at most
`SAMPLE_RATE * 0.49`, and is at least 20 provided the `cutoff` field is at
least 20. -/
theorem cutoff_buffer_bounds (c : ℝ) (m : ℕ → ℝ) (i : ℕ) :
    (20 ≤ cutoffBuffer c (some m) i ∧ cutoffBuffer c (some m) i ≤ SAMPLE_RATE * 0.49) ∧
      cutoffBuffer c none i ≤ SAMPLE_RATE * 0.49 ∧
      (20 ≤ c → 20 ≤ cutoffBuffer c none i) := by
  refine ⟨⟨?_, ?_⟩, ?_, fun hc => ?_⟩
  · exact le_min (le_max_right _ _) (by norm_num [SAMPLE_RATE])
  · exact min_le_right _ _
  · exact min_le_right _ _
  · exact le_min hc (by norm_num [SAMPLE_RATE])

/-- Witness for `cutoff_buffer_bounds` at a concrete cutoff and modulation. -/
theorem cutoff_buffer_bounds_witness :
    (20 ≤ cutoffBuffer 8000 (some fun _ => 0) 0 ∧
        cutoffBuffer 8000 (some fun _ => 0) 0 ≤ SAMPLE_RATE * 0.49) ∧
      cutoffBuffer 8000 none 0 ≤ SAMPLE_RATE * 0.49 ∧
      20 ≤ cutoffBuffer 8000 none 0 := by
  have h := cutoff_buffer_bounds 8000 (fun _ => 0) 0
  exact ⟨h.1, h.2.1, h.2.2 (by norm_num)⟩

/-- C8: zero-input zero-output.  For every filter whose cutoff lies in
`[20, SAMPLE_RATE * 0.49]`, whose resonance lies in `[0, 1]` and whose four
taps are zero, `MoogFilter.render` on an all-zero buffer (with or without
cutoff modulation) returns an all-zero buffer and leaves all four taps zero. -/
theorem moog_render_zero_input (flt : MoogFilter) (n : ℕ) (mod : Option (ℕ → ℝ))
    (hc1 : 20 ≤ flt.cutoff) (hc2 : flt.cutoff ≤ SAMPLE_RATE * 0.49)
    (hr1 : 0 ≤ flt.resonance) (hr2 : flt.resonance ≤ 1)
    (hs : flt.state = LadderState.zero) :
    flt.render (List.replicate n 0) mod = (List.replicate n 0, LadderState.zero) := by
  unfold MoogFilter.render
  rw [hs]
  have hlen : ((List.replicate n (0 : ℝ)).zip
      ((List.range (List.replicate n (0 : ℝ)).length).map
        (cutoffBuffer flt.cutoff mod))).length = n := by
    simp
  rw [pythonProcess_zero_input _ _ _ fun p hp => ?_, hlen]
  have := (List.of_mem_zip hp).1
  exact List.eq_of_mem_replicate this

/-- Witness for `moog_render_zero_input` at a concrete filter. -/
theorem moog_render_zero_input_witness :
    ({ cutoff := 8000, resonance := 0.5, state := LadderState.zero } :
        MoogFilter).render (List.replicate 3 0) none =
      (List.replicate 3 0, LadderState.zero) := by
  exact moog_render_zero_input _ 3 none (by norm_num) (by norm_num [SAMPLE_RATE])
    (by norm_num) (by norm_num) rfl

/-! ## ADSR envelope (`synth/dsp/envelope.py`) -/

/-- `_MIN_TIME` (envelope.py line 5): minimum stage time, avoids division by
zero. -/
noncomputable def MIN_TIME : ℝ := 0.001

/-- The envelope state machine states (envelope.py line 14). -/
inductive EnvPhase
  | idle
  | attack
  | decay
  | sustain
  | release
deriving DecidableEq, BEq

/-- The `ADSR` class (envelope.py lines 8–16): the four stage parameters plus
the mutable triple `(_state, _level, _samples_in_state)`. -/
structure ADSR where
  attack : ℝ := 0.01
  decay : ℝ := 0.1
  sustain : ℝ := 0.7
  release : ℝ := 0.3
  state : EnvPhase := .idle
  level : ℝ := 0
  samples_in_state : ℕ := 0

/-- `ADSR.gate_on` (envelope.py lines 18–20). -/
noncomputable def ADSR.gate_on (e : ADSR) : ADSR :=
  { e with state := .attack, samples_in_state := 0 }

/-- `ADSR.gate_off` (envelope.py lines 22–25). -/
noncomputable def ADSR.gate_off (e : ADSR) : ADSR :=
  if e.state = .idle then e else { e with state := .release, samples_in_state := 0 }

/-- `ADSR.is_active` (envelope.py lines 27–28). -/
def ADSR.is_active (e : ADSR) : Bool := e.state != .idle

/-- `ADSR._advance` (envelope.py lines 65–89): one control-rate step over a
block of `n` samples. -/
noncomputable def ADSR.advance (e : ADSR) (n : ℕ) : ADSR :=
  let e := { e with samples_in_state := e.samples_in_state + n }
  match e.state with
  | .attack =>
      let rate := max e.attack MIN_TIME * SAMPLE_RATE
      let level := e.level + n / rate
      if 1 ≤ level then { e with state := .decay, level := 1, samples_in_state := 0 }
      else { e with level := level }
  | .decay =>
      let rate := max e.decay MIN_TIME * SAMPLE_RATE
      let level := e.level - (1 - e.sustain) * n / rate
      if level ≤ e.sustain then
        { e with state := .sustain, level := e.sustain, samples_in_state := 0 }
      else { e with level := level }
  | .sustain => { e with level := e.sustain }
  | .release =>
      let rate := max e.release MIN_TIME * SAMPLE_RATE
      let level := e.level - e.level * n / rate
      if level < 1e-5 then { e with state := .idle, level := 0, samples_in_state := 0 }
      else { e with level := level }
  | .idle => e

/-- The control-rate block sizes of `ADSR.render` for `n` samples
(envelope.py lines 32–39): `n / 16` full blocks followed by the nonzero
remainder, if any. -/
def chunkSizes (n : ℕ) : List ℕ :=
  List.replicate (n / CONTROL_RATE_DIVIDER) CONTROL_RATE_DIVIDER ++
    (if n % CONTROL_RATE_DIVIDER = 0 then [] else [n % CONTROL_RATE_DIVIDER])

/-- The envelope state after `ADSR.render n` (the `_advance` calls of
envelope.py lines 38–41). -/
noncomputable def ADSR.renderState (e : ADSR) (n : ℕ) : ADSR :=
  (chunkSizes n).foldl ADSR.advance e

/-- The ladder of control values collected by `ADSR.render`
(envelope.py line 41): the level after each `_advance`. -/
noncomputable def ADSR.controlValues : ADSR → List ℕ → List ℝ
  | _, [] => []
  | e, b :: bs =>
      let e1 := e.advance b
      e1.level :: e1.controlValues bs

/-- One linear interpolation block (envelope.py lines 57–61):
`prev + (cur - prev) * j / block_size` for `j = 0, …, block_size - 1`. -/
noncomputable def rampBlock (prev cur : ℝ) (b : ℕ) : List ℝ :=
  (List.range b).map fun j : ℕ => prev + (cur - prev) * (j : ℝ) / b

/-- The ramped tail of the interpolation loop (blocks `i ≥ 1` of envelope.py
lines 50–62), threading the previous control value. -/
noncomputable def interpBlocks : ℝ → List ℝ → List ℕ → List ℝ
  | _, _, [] => []
  | _, [], _ => []
  | prev, c :: cs, b :: bs => rampBlock prev c b ++ interpBlocks c cs bs

/-- The audio-rate output buffer of `ADSR.render` (envelope.py lines 43–63):
a constant buffer when at most one control block was produced, otherwise the
first block held flat at the first control value followed by linear ramps
between consecutive control values. -/
noncomputable def ADSR.renderOut (e : ADSR) (n : ℕ) : List ℝ :=
  let bs := chunkSizes n
  let cv := e.controlValues bs
  if cv.length ≤ 1 then List.replicate n (e.renderState n).level
  else
    match cv, bs with
    | c0 :: cs, b0 :: brest => List.replicate b0 c0 ++ interpBlocks c0 cs brest
    | _, _ => []

/-- `ADSR.render` (envelope.py lines 30–63): the output buffer together with
the envelope state after the call. -/
noncomputable def ADSR.render (e : ADSR) (n : ℕ) : List ℝ × ADSR :=
  (e.renderOut n, e.renderState n)

/-- The state after a sequence of `render` calls of the given sample counts. -/
noncomputable def ADSR.renderSeq (e : ADSR) (ns : List ℕ) : ADSR :=
  ns.foldl ADSR.renderState e

/-- Every control-rate block is at most `CONTROL_RATE_DIVIDER = 16` samples. -/
lemma chunkSizes_le (n : ℕ) : ∀ c ∈ chunkSizes n, c ≤ 16 := by
  intro c hc
  unfold chunkSizes at hc
  rcases List.mem_append.mp hc with h | h
  · rw [List.eq_of_mem_replicate h]; rfl
  · rcases (by split at h <;> simp_all : c = n % CONTROL_RATE_DIVIDER) with rfl
    exact (Nat.mod_lt n (by norm_num [CONTROL_RATE_DIVIDER])).le

/-- The control-rate blocks of a render call cover exactly its samples. -/
lemma chunkSizes_sum (n : ℕ) : (chunkSizes n).sum = n := by
  unfold chunkSizes CONTROL_RATE_DIVIDER
  rcases Nat.eq_zero_or_pos (n % 16) with h | h
  · rw [if_pos h]
    simp only [List.append_nil, List.sum_replicate, smul_eq_mul]
    omega
  · rw [if_neg h.ne.symm]
    simp only [List.sum_append, List.sum_replicate, smul_eq_mul, List.sum_cons,
      List.sum_nil]
    omega

/-- `_advance` never touches the four stage parameters. -/
lemma advance_params (e : ADSR) (b : ℕ) :
    (e.advance b).attack = e.attack ∧ (e.advance b).decay = e.decay ∧
      (e.advance b).sustain = e.sustain ∧ (e.advance b).release = e.release := by
  rcases e with ⟨a, d, s, r, st, l, k⟩
  cases st <;> simp [ADSR.advance, apply_ite]

/-- The stage time floor: every stage rate is at least `0.001 * 44100`. -/
lemma rate_lb (x : ℝ) : (44.1 : ℝ) ≤ max x MIN_TIME * SAMPLE_RATE := by
  have h := le_max_right x MIN_TIME
  simp only [MIN_TIME, SAMPLE_RATE] at h ⊢
  nlinarith

/-- One `_advance` step keeps the envelope level inside `[0, 1]` whenever the
sustain parameter is in `[0, 1]` and the block is at most one control period. -/
lemma advance_level_mem (e : ADSR) (b : ℕ) (hb : b ≤ 16)
    (hs0 : 0 ≤ e.sustain) (hs1 : e.sustain ≤ 1)
    (hl0 : 0 ≤ e.level) (hl1 : e.level ≤ 1) :
    0 ≤ (e.advance b).level ∧ (e.advance b).level ≤ 1 := by
  rcases e with ⟨a, d, s, r, st, l, k⟩
  simp only at hs0 hs1 hl0 hl1
  have hb16 : ((b : ℕ) : ℝ) ≤ 16 := by exact_mod_cast hb
  have hb0 : (0 : ℝ) ≤ (b : ℕ) := Nat.cast_nonneg b
  cases st
  case idle => simpa [ADSR.advance] using ⟨hl0, hl1⟩
  case attack =>
      have hR := rate_lb a
      have hdiv : 0 ≤ ((b : ℕ) : ℝ) / (max a MIN_TIME * SAMPLE_RATE) :=
        div_nonneg hb0 (by linarith)
      simp only [ADSR.advance]
      split_ifs with h
      · simp
      · simp only at h ⊢
        constructor
        · linarith
        · linarith [not_le.mp h]
  case decay =>
      have hR := rate_lb d
      have hdiv : 0 ≤ (1 - s) * ((b : ℕ) : ℝ) / (max d MIN_TIME * SAMPLE_RATE) :=
        div_nonneg (mul_nonneg (by linarith) hb0) (by linarith)
      simp only [ADSR.advance]
      split_ifs with h
      · exact ⟨hs0, hs1⟩
      · simp only at h ⊢
        constructor
        · linarith [not_le.mp h]
        · linarith
  case sustain => simpa [ADSR.advance] using ⟨hs0, hs1⟩
  case release =>
      have hR := rate_lb r
      have hRpos : (0 : ℝ) < max r MIN_TIME * SAMPLE_RATE := by linarith
      have hfrac1 : ((b : ℕ) : ℝ) / (max r MIN_TIME * SAMPLE_RATE) ≤ 1 := by
        rw [div_le_one hRpos]
        linarith
      have hfrac0 : 0 ≤ ((b : ℕ) : ℝ) / (max r MIN_TIME * SAMPLE_RATE) :=
        div_nonneg hb0 (by linarith)
      simp only [ADSR.advance]
      split_ifs with h
      · norm_num
      · simp only at h ⊢
        constructor
        · have hkey : 0 ≤ l * (1 - ((b : ℕ) : ℝ) / (max r MIN_TIME * SAMPLE_RATE)) :=
            mul_nonneg hl0 (by linarith)
          have hexp : l * ((b : ℕ) : ℝ) / (max r MIN_TIME * SAMPLE_RATE) =
              l * (((b : ℕ) : ℝ) / (max r MIN_TIME * SAMPLE_RATE)) := by ring
          nlinarith
        · have hexp : 0 ≤ l * ((b : ℕ) : ℝ) / (max r MIN_TIME * SAMPLE_RATE) :=
            div_nonneg (mul_nonneg hl0 hb0) (by linarith)
          linarith

/-- Folding `_advance` over control blocks of at most one period each keeps
the level inside `[0, 1]` and never touches the parameters. -/
lemma foldl_advance_mem (bs : List ℕ) :
    ∀ e : ADSR, (∀ c ∈ bs, c ≤ 16) → 0 ≤ e.sustain → e.sustain ≤ 1 →
      0 ≤ e.level → e.level ≤ 1 →
      0 ≤ (bs.foldl ADSR.advance e).level ∧ (bs.foldl ADSR.advance e).level ≤ 1 := by
  induction bs with
  | nil => intro e _ _ _ h0 h1; exact ⟨h0, h1⟩
  | cons b bs ih =>
      intro e hle hs0 hs1 hl0 hl1
      have hmem := advance_level_mem e b (hle b (List.mem_cons_self b bs)) hs0 hs1 hl0 hl1
      have hps := advance_params e b
      rw [List.foldl_cons]
      exact ih (e.advance b) (fun c hc => hle c (List.mem_cons_of_mem b hc))
        (hps.2.2.1 ▸ hs0) (hps.2.2.1 ▸ hs1) hmem.1 hmem.2

/-- All control values collected during a render stay inside `[0, 1]`. -/
lemma controlValues_mem (bs : List ℕ) :
    ∀ e : ADSR, (∀ c ∈ bs, c ≤ 16) → 0 ≤ e.sustain → e.sustain ≤ 1 →
      0 ≤ e.level → e.level ≤ 1 →
      ∀ v ∈ e.controlValues bs, 0 ≤ v ∧ v ≤ 1 := by
  induction bs with
  | nil => intro e _ _ _ _ _ v hv; simp [ADSR.controlValues] at hv
  | cons b bs ih =>
      intro e hle hs0 hs1 hl0 hl1 v hv
      have hmem := advance_level_mem e b (hle b (List.mem_cons_self b bs)) hs0 hs1 hl0 hl1
      have hps := advance_params e b
      simp only [ADSR.controlValues, List.mem_cons] at hv
      rcases hv with rfl | hv
      · exact hmem
      · exact ih (e.advance b) (fun c hc => hle c (List.mem_cons_of_mem b hc))
          (hps.2.2.1 ▸ hs0) (hps.2.2.1 ▸ hs1) hmem.1 hmem.2 v hv

/-- Linear interpolation between two values of `[0, 1]` stays in `[0, 1]`. -/
lemma rampBlock_mem (prev cur : ℝ) (b : ℕ) (hp0 : 0 ≤ prev) (hp1 : prev ≤ 1)
    (hc0 : 0 ≤ cur) (hc1 : cur ≤ 1) :
    ∀ v ∈ rampBlock prev cur b, 0 ≤ v ∧ v ≤ 1 := by
  intro v hv
  unfold rampBlock at hv
  rw [List.mem_map] at hv
  obtain ⟨j, hj, rfl⟩ := hv
  rw [List.mem_range] at hj
  have hbpos : 0 < b := lt_of_le_of_lt (Nat.zero_le j) hj
  have hb0 : (0 : ℝ) < b := by exact_mod_cast hbpos
  have ht0 : 0 ≤ (j : ℝ) / b := div_nonneg (Nat.cast_nonneg j) hb0.le
  have ht1 : (j : ℝ) / b ≤ 1 := by
    rw [div_le_one hb0]
    exact_mod_cast hj.le
  have hval : prev + (cur - prev) * (j : ℝ) / b =
      prev * (1 - (j : ℝ) / b) + cur * ((j : ℝ) / b) := by ring
  rw [hval]
  constructor
  · exact add_nonneg (mul_nonneg hp0 (sub_nonneg.mpr ht1)) (mul_nonneg hc0 ht0)
  · have h1 : prev * (1 - (j : ℝ) / b) ≤ 1 * (1 - (j : ℝ) / b) :=
      mul_le_mul_of_nonneg_right hp1 (sub_nonneg.mpr ht1)
    have h2 : cur * ((j : ℝ) / b) ≤ 1 * ((j : ℝ) / b) :=
      mul_le_mul_of_nonneg_right hc1 ht0
    linarith

/-- The ramped interpolation of control values in `[0, 1]` stays in `[0, 1]`. -/
lemma interpBlocks_mem (bs : List ℕ) :
    ∀ (prev : ℝ) (cs : List ℝ), 0 ≤ prev → prev ≤ 1 →
      (∀ c ∈ cs, 0 ≤ c ∧ c ≤ 1) →
      ∀ v ∈ interpBlocks prev cs bs, 0 ≤ v ∧ v ≤ 1 := by
  induction bs with
  | nil =>
      intro prev cs _ _ _ v hv
      cases cs <;> simp [interpBlocks] at hv
  | cons b bs ih =>
      intro prev cs hp0 hp1 hcs v hv
      cases cs with
      | nil => simp [interpBlocks] at hv
      | cons c cs =>
          simp only [interpBlocks, List.mem_append] at hv
          have hc := hcs c (List.mem_cons_self c cs)
          rcases hv with hv | hv
          · exact rampBlock_mem prev c b hp0 hp1 hc.1 hc.2 v hv
          · exact ih c cs hc.1 hc.2 (fun x hx => hcs x (List.mem_cons_of_mem c hx)) v hv

/-- The full audio-rate envelope buffer stays inside `[0, 1]`. -/
lemma renderOut_mem (e : ADSR) (n : ℕ) (hs0 : 0 ≤ e.sustain) (hs1 : e.sustain ≤ 1)
    (hl0 : 0 ≤ e.level) (hl1 : e.level ≤ 1) :
    ∀ v ∈ e.renderOut n, 0 ≤ v ∧ v ≤ 1 := by
  intro v hv
  have hcv := controlValues_mem (chunkSizes n) e (chunkSizes_le n) hs0 hs1 hl0 hl1
  have hfold := foldl_advance_mem (chunkSizes n) e (chunkSizes_le n) hs0 hs1 hl0 hl1
  simp only [ADSR.renderOut] at hv
  split_ifs at hv with hlen
  · rcases List.eq_of_mem_replicate hv with rfl
    exact hfold
  · rcases hc : e.controlValues (chunkSizes n) with _ | ⟨c0, cs⟩
    · rw [hc] at hv; simp at hv
    · rcases hb : chunkSizes n with _ | ⟨b0, brest⟩
      · rw [hc, hb] at hv
        rw [hb] at hc
        simp [ADSR.controlValues] at hc
      · rw [hc, hb] at hv
        simp only [List.mem_append] at hv
        have hc0m : 0 ≤ c0 ∧ c0 ≤ 1 := hcv c0 (hc ▸ List.mem_cons_self c0 cs)
        have hcsm : ∀ x ∈ cs, 0 ≤ x ∧ x ≤ 1 := fun x hx =>
          hcv x (hc ▸ List.mem_cons_of_mem c0 hx)
        rcases hv with hv | hv
        · rcases List.eq_of_mem_replicate hv with rfl
          exact hc0m
        · exact interpBlocks_mem brest c0 cs hc0m.1 hc0m.2 hcsm v hv

/-- The client-visible envelope operations of claim C10. -/
inductive EnvOp
  | gateOn
  | gateOff
  | render (n : ℕ)

/-- Apply one envelope operation, returning the new envelope and the samples
it produced (gates produce none). -/
noncomputable def applyEnvOp (e : ADSR) : EnvOp → ADSR × List ℝ
  | .gateOn => (e.gate_on, [])
  | .gateOff => (e.gate_off, [])
  | .render n => (e.renderState n, e.renderOut n)

/-- Run a sequence of envelope operations, concatenating all samples. -/
noncomputable def runEnvOps : ADSR → List EnvOp → ADSR × List ℝ
  | e, [] => (e, [])
  | e, op :: ops =>
      let r := applyEnvOp e op
      let rest := runEnvOps r.1 ops
      (rest.1, r.2 ++ rest.2)

/-- Folding `_advance` preserves the sustain parameter. -/
lemma foldl_advance_sustain (bs : List ℕ) :
    ∀ e : ADSR, (bs.foldl ADSR.advance e).sustain = e.sustain := by
  induction bs with
  | nil => intro e; rfl
  | cons b bs ih =>
      intro e
      rw [List.foldl_cons, ih (e.advance b), (advance_params e b).2.2.1]

/-- The gate operations preserve the level and the parameters. -/
lemma gate_preserves (e : ADSR) :
    (e.gate_on.level = e.level ∧ e.gate_on.sustain = e.sustain) ∧
      (e.gate_off.level = e.level ∧ e.gate_off.sustain = e.sustain) := by
  unfold ADSR.gate_on ADSR.gate_off
  split_ifs <;> simp

/-- C10: envelope level invariant.  For every ADSR whose sustain lies in
`[0, 1]` and whose level lies in `[0, 1]` (in particular a fresh envelope at
level 0), after any sequence of `gate_on`, `gate_off` and `render` calls the
internal level is still in `[0, 1]` and every value of every rendered buffer
lies in `[0, 1]`.  (The control blocks are at most `CONTROL_RATE_DIVIDER = 16`
samples, below `MIN_TIME * SAMPLE_RATE = 44.1`.) -/
theorem adsr_level_invariant (ops : List EnvOp) :
    ∀ e : ADSR, 0 ≤ e.sustain → e.sustain ≤ 1 → 0 ≤ e.level → e.level ≤ 1 →
      (0 ≤ (runEnvOps e ops).1.level ∧ (runEnvOps e ops).1.level ≤ 1) ∧
        ∀ v ∈ (runEnvOps e ops).2, 0 ≤ v ∧ v ≤ 1 := by
  induction ops with
  | nil =>
      intro e _ _ hl0 hl1
      exact ⟨⟨hl0, hl1⟩, by simp [runEnvOps]⟩
  | cons op ops ih =>
      intro e hs0 hs1 hl0 hl1
      cases op with
      | gateOn =>
          have hg := (gate_preserves e).1
          have := ih e.gate_on (hg.2 ▸ hs0) (hg.2 ▸ hs1) (hg.1 ▸ hl0) (hg.1 ▸ hl1)
          simpa [runEnvOps, applyEnvOp] using this
      | gateOff =>
          have hg := (gate_preserves e).2
          have := ih e.gate_off (hg.2 ▸ hs0) (hg.2 ▸ hs1) (hg.1 ▸ hl0) (hg.1 ▸ hl1)
          simpa [runEnvOps, applyEnvOp] using this
      | render n =>
          have hfold := foldl_advance_mem (chunkSizes n) e (chunkSizes_le n) hs0 hs1 hl0 hl1
          have hout := renderOut_mem e n hs0 hs1 hl0 hl1
          have hsus : ((chunkSizes n).foldl ADSR.advance e).sustain = e.sustain :=
            foldl_advance_sustain (chunkSizes n) e
          have hrec := ih ((chunkSizes n).foldl ADSR.advance e)
            (hsus ▸ hs0) (hsus ▸ hs1) hfold.1 hfold.2
          refine ⟨?_, ?_⟩
          · simpa [runEnvOps, applyEnvOp, ADSR.renderState] using hrec.1
          · intro v hv
            simp only [runEnvOps, applyEnvOp, List.mem_append] at hv
            rcases hv with hv | hv
            · exact hout v hv
            · exact hrec.2 v (by simpa [ADSR.renderState] using hv)

/-- Witness for `adsr_level_invariant` at a concrete envelope and sequence. -/
theorem adsr_level_invariant_witness :
    (0 ≤ (runEnvOps {} [EnvOp.gateOn, EnvOp.render 20, EnvOp.gateOff,
        EnvOp.render 45]).1.level ∧
      (runEnvOps {} [EnvOp.gateOn, EnvOp.render 20, EnvOp.gateOff,
        EnvOp.render 45]).1.level ≤ 1) ∧
      ∀ v ∈ (runEnvOps {} [EnvOp.gateOn, EnvOp.render 20, EnvOp.gateOff,
        EnvOp.render 45]).2, 0 ≤ v ∧ v ≤ 1 :=
  adsr_level_invariant [EnvOp.gateOn, EnvOp.render 20, EnvOp.gateOff, EnvOp.render 45]
    {} (by norm_num) (by norm_num) (by norm_num) (by norm_num)

/-- Evaluating `_advance` in the release state (envelope.py lines 83–89). -/
lemma advance_release (e : ADSR) (c : ℕ) (hst : e.state = .release) :
    e.advance c =
      if e.level - e.level * c / (max e.release MIN_TIME * SAMPLE_RATE) < 1e-5 then
        { e with state := .idle, level := 0, samples_in_state := 0 }
      else
        { e with level := e.level - e.level * c / (max e.release MIN_TIME * SAMPLE_RATE),
                 samples_in_state := e.samples_in_state + c } := by
  rcases e with ⟨a, d, s, r, st, l, k⟩
  simp only at hst
  subst hst
  simp only [ADSR.advance]

/-- Evaluating `_advance` in the idle state: only the sample counter moves. -/
lemma advance_idle (e : ADSR) (c : ℕ) (hst : e.state = .idle) :
    e.advance c = { e with samples_in_state := e.samples_in_state + c } := by
  rcases e with ⟨a, d, s, r, st, l, k⟩
  simp only at hst
  subst hst
  simp only [ADSR.advance]

/-- An idle envelope stays idle at the same level under any control blocks. -/
lemma foldl_advance_idle (bs : List ℕ) :
    ∀ e : ADSR, e.state = .idle →
      (bs.foldl ADSR.advance e).state = .idle ∧
        (bs.foldl ADSR.advance e).level = e.level := by
  induction bs with
  | nil => intro e hst; exact ⟨hst, rfl⟩
  | cons b bs ih =>
      intro e hst
      rw [List.foldl_cons, advance_idle e b hst]
      exact ih _ hst

/-- An idle envelope produces control values equal to its level. -/
lemma controlValues_idle (bs : List ℕ) :
    ∀ e : ADSR, e.state = .idle → ∀ v ∈ e.controlValues bs, v = e.level := by
  induction bs with
  | nil => intro e _ v hv; simp [ADSR.controlValues] at hv
  | cons b bs ih =>
      intro e hst v hv
      rw [ADSR.controlValues, advance_idle e b hst] at hv
      rcases List.mem_cons.mp hv with rfl | hv
      · rfl
      · exact ih { e with samples_in_state := e.samples_in_state + b } hst v hv

/-- Interpolating an all-zero ladder of control values gives only zeros. -/
lemma interpBlocks_zero (bs : List ℕ) :
    ∀ cs : List ℝ, (∀ c ∈ cs, c = 0) → ∀ v ∈ interpBlocks 0 cs bs, v = 0 := by
  induction bs with
  | nil => intro cs _ v hv; cases cs <;> simp [interpBlocks] at hv
  | cons b bs ih =>
      intro cs hcs v hv
      cases cs with
      | nil => simp [interpBlocks] at hv
      | cons c cs =>
          have hc : c = 0 := hcs c (List.mem_cons_self c cs)
          subst hc
          simp only [interpBlocks, List.mem_append] at hv
          rcases hv with hv | hv
          · unfold rampBlock at hv
            rw [List.mem_map] at hv
            obtain ⟨j, _, rfl⟩ := hv
            norm_num
          · exact ih cs (fun x hx => hcs x (List.mem_cons_of_mem _ hx)) v hv

/-- An idle envelope at level 0 renders exactly zero and stays idle at 0. -/
lemma renderOut_idle_zero (e : ADSR) (m : ℕ) (hst : e.state = .idle)
    (hl : e.level = 0) :
    (∀ v ∈ e.renderOut m, v = 0) ∧ (e.renderState m).state = .idle ∧
      (e.renderState m).level = 0 := by
  have hid := foldl_advance_idle (chunkSizes m) e hst
  have hcv := controlValues_idle (chunkSizes m) e hst
  refine ⟨?_, hid.1, hid.2.trans hl⟩
  intro v hv
  simp only [ADSR.renderOut] at hv
  split_ifs at hv with hlen
  · rcases List.eq_of_mem_replicate hv with rfl
    exact (foldl_advance_idle (chunkSizes m) e hst).2.trans hl
  · rcases hc : e.controlValues (chunkSizes m) with _ | ⟨c0, cs⟩
    · rw [hc] at hv; simp at hv
    · rcases hb : chunkSizes m with _ | ⟨b0, brest⟩
      · rw [hc, hb] at hv
        rw [hb] at hc
        simp [ADSR.controlValues] at hc
      · rw [hc, hb] at hv
        have hc0 : c0 = 0 := (hcv c0 (hc ▸ List.mem_cons_self c0 cs)).trans hl
        have hcs : ∀ x ∈ cs, x = 0 := fun x hx =>
          (hcv x (hc ▸ List.mem_cons_of_mem c0 hx)).trans hl
        subst hc0
        simp only [List.mem_append] at hv
        rcases hv with hv | hv
        · exact List.eq_of_mem_replicate hv
        · exact interpBlocks_zero brest cs hcs v hv

/-- In the release state, folding control blocks of at most one period either
reaches idle at level 0, or stays in release with the level both above the
idle threshold and below `max(level,0) * exp(-(samples)/rate)`. -/
lemma release_chunks (cs : List ℕ) :
    ∀ e : ADSR, (∀ c ∈ cs, c ≤ 16) → e.state = .release →
      ((cs.foldl ADSR.advance e).state = .idle ∧
          (cs.foldl ADSR.advance e).level = 0) ∨
        ((cs.foldl ADSR.advance e).state = .release ∧
          (cs.foldl ADSR.advance e).level ≤
            max e.level 0 *
              Real.exp (-((cs.sum : ℕ) : ℝ) / (max e.release MIN_TIME * SAMPLE_RATE)) ∧
          (cs = [] ∨ (1e-5 : ℝ) ≤ (cs.foldl ADSR.advance e).level)) := by
  induction cs with
  | nil =>
      intro e _ hst
      right
      refine ⟨hst, ?_, Or.inl rfl⟩
      simp only [List.foldl_nil, List.sum_nil, Nat.cast_zero, neg_zero, zero_div,
        Real.exp_zero, mul_one]
      exact le_max_left e.level 0
  | cons c cs ih =>
      intro e hle hst
      have hR44 : (44.1 : ℝ) ≤ max e.release MIN_TIME * SAMPLE_RATE := rate_lb e.release
      have hc16 : ((c : ℕ) : ℝ) ≤ 16 := by exact_mod_cast hle c (List.mem_cons_self c cs)
      have hcn0 : (0 : ℝ) ≤ (c : ℕ) := Nat.cast_nonneg c
      have hfr0 : 0 ≤ ((c : ℕ) : ℝ) / (max e.release MIN_TIME * SAMPLE_RATE) :=
        div_nonneg hcn0 (by linarith)
      have hfr1 : ((c : ℕ) : ℝ) / (max e.release MIN_TIME * SAMPLE_RATE) ≤ 1 := by
        rw [div_le_one (by linarith)]
        linarith
      rw [List.foldl_cons, advance_release e c hst]
      split_ifs with hidle
      · left
        have hid := foldl_advance_idle cs
          { e with state := .idle, level := 0, samples_in_state := 0 } rfl
        exact ⟨hid.1, hid.2.trans rfl⟩
      · have hl' : (1e-5 : ℝ) ≤
            e.level - e.level * c / (max e.release MIN_TIME * SAMPLE_RATE) :=
          not_lt.mp hidle
        have hlpos : 0 < e.level := by
          by_contra hneg
          push_neg at hneg
          have h1 : e.level *
              (1 - ((c : ℕ) : ℝ) / (max e.release MIN_TIME * SAMPLE_RATE)) ≤ 0 :=
            mul_nonpos_iff.mpr (Or.inr ⟨hneg, sub_nonneg.mpr hfr1⟩)
          have h2 : e.level - e.level * c / (max e.release MIN_TIME * SAMPLE_RATE) =
              e.level * (1 - ((c : ℕ) : ℝ) / (max e.release MIN_TIME * SAMPLE_RATE)) := by
            ring
          rw [h2] at hl'
          linarith
        set e1 : ADSR :=
          { e with level := e.level - e.level * c / (max e.release MIN_TIME * SAMPLE_RATE),
                   samples_in_state := e.samples_in_state + c } with he1
        have he1lev : e1.level =
            e.level - e.level * c / (max e.release MIN_TIME * SAMPLE_RATE) := by
          rw [he1]
        have he1st : e1.state = EnvPhase.release := by
          rw [he1]
          exact hst
        have he1rel : e1.release = e.release := by
          rw [he1]
        have hrec := ih e1 (fun x hx => hle x (List.mem_cons_of_mem c hx)) he1st
        rcases hrec with h | ⟨h1, h2, h3⟩
        · exact Or.inl h
        · right
          refine ⟨h1, ?_, ?_⟩
          · rw [he1rel] at h2
            have hmax1 : max e1.level 0 = e1.level :=
              max_eq_left (by rw [he1lev]; linarith)
            rw [hmax1] at h2
            have hexp1 : 1 - ((c : ℕ) : ℝ) / (max e.release MIN_TIME * SAMPLE_RATE) ≤
                Real.exp (-(((c : ℕ) : ℝ) / (max e.release MIN_TIME * SAMPLE_RATE))) := by
              have h := Real.add_one_le_exp
                (-(((c : ℕ) : ℝ) / (max e.release MIN_TIME * SAMPLE_RATE)))
              linarith
            have hstep : e1.level ≤ e.level * Real.exp
                (-(((c : ℕ) : ℝ) / (max e.release MIN_TIME * SAMPLE_RATE))) := by
              rw [he1lev]
              have heq : e.level - e.level * c / (max e.release MIN_TIME * SAMPLE_RATE) =
                  e.level *
                    (1 - ((c : ℕ) : ℝ) / (max e.release MIN_TIME * SAMPLE_RATE)) := by
                ring
              rw [heq]
              exact mul_le_mul_of_nonneg_left hexp1 hlpos.le
            calc (cs.foldl ADSR.advance e1).level
                ≤ e1.level * Real.exp (-((cs.sum : ℕ) : ℝ) /
                    (max e.release MIN_TIME * SAMPLE_RATE)) := h2
              _ ≤ (e.level * Real.exp
                    (-(((c : ℕ) : ℝ) / (max e.release MIN_TIME * SAMPLE_RATE)))) *
                    Real.exp (-((cs.sum : ℕ) : ℝ) /
                      (max e.release MIN_TIME * SAMPLE_RATE)) :=
                  mul_le_mul_of_nonneg_right hstep (Real.exp_nonneg _)
              _ = e.level * Real.exp (-(((c :: cs).sum : ℕ) : ℝ) /
                    (max e.release MIN_TIME * SAMPLE_RATE)) := by
                  rw [mul_assoc, ← Real.exp_add]
                  congr 1
                  push_cast [List.sum_cons]
                  ring
              _ = max e.level 0 * Real.exp (-(((c :: cs).sum : ℕ) : ℝ) /
                    (max e.release MIN_TIME * SAMPLE_RATE)) := by
                  rw [max_eq_left hlpos.le]
          · right
            rcases h3 with rfl | h3
            · have : (List.foldl ADSR.advance e1 []).level = e1.level := rfl
              rw [this, he1lev]
              exact hl'
            · exact h3

/-- A sequence of `render` calls is the fold of `_advance` over the
concatenation of all their control blocks. -/
lemma renderSeq_chunks (ns : List ℕ) :
    ∀ e : ADSR, e.renderSeq ns = ((ns.map chunkSizes).flatten).foldl ADSR.advance e := by
  induction ns with
  | nil => intro e; rfl
  | cons n ns ih =>
      intro e
      have h := ih (e.renderState n)
      unfold ADSR.renderSeq at h ⊢
      rw [List.foldl_cons, h, List.map_cons, List.flatten_cons, List.foldl_append]
      rfl

/-- All concatenated control blocks are at most one control period. -/
lemma join_chunks_le (ns : List ℕ) : ∀ c ∈ ((ns.map chunkSizes).flatten), c ≤ 16 := by
  intro c hc
  rw [List.mem_flatten] at hc
  obtain ⟨l, hl, hcl⟩ := hc
  rw [List.mem_map] at hl
  obtain ⟨n, _, rfl⟩ := hl
  exact chunkSizes_le n c hcl

/-- The concatenated control blocks cover exactly the requested samples. -/
lemma join_chunks_sum (ns : List ℕ) : ((ns.map chunkSizes).flatten).sum = ns.sum := by
  induction ns with
  | nil => rfl
  | cons n ns ih =>
      rw [List.map_cons, List.flatten_cons, List.sum_append, ih, chunkSizes_sum,
        List.sum_cons]

/-- `exp 12 > 10^5`, so twelve release time constants shrink any level of at
most 1 below the `1e-5` idle threshold. -/
lemma exp_neg_twelve_lt : Real.exp (-12) < 1e-5 := by
  have h9 := Real.exp_one_gt_d9
  have hpow : (2.7182818283 : ℝ) ^ (12 : ℕ) ≤ Real.exp 1 ^ (12 : ℕ) :=
    pow_le_pow_left (by norm_num) h9.le 12
  have h12 : (100000 : ℝ) < Real.exp 12 := by
    have hval : (100000 : ℝ) < (2.7182818283 : ℝ) ^ (12 : ℕ) := by norm_num
    have hexp : Real.exp 1 ^ (12 : ℕ) = Real.exp 12 := by
      rw [← Real.exp_nat_mul]
      norm_num
    linarith
  have hpos : (0 : ℝ) < 100000 := by norm_num
  rw [Real.exp_neg]
  have := inv_lt_inv_of_lt hpos h12
  calc (Real.exp 12)⁻¹ < (100000 : ℝ)⁻¹ := this
    _ = 1e-5 := by norm_num

/-- C4 (amended): for every ADSR in the release state with level at most 1
(e.g. immediately after `gate_off`), rendering at least
`12 * max(release, MIN_TIME) * SAMPLE_RATE` further samples (twelve time
constants of the proportional decay, `12 > ln(10^5)`) leaves the envelope
idle: `is_active` is false, the level is exactly 0, and every further render
keeps the envelope idle at level 0 producing an exactly zero buffer. -/
theorem adsr_release_idle_after_12x (e : ADSR) (ns : List ℕ)
    (hst : e.state = .release) (hl : e.level ≤ 1)
    (hsum : 12 * (max e.release MIN_TIME * SAMPLE_RATE) ≤ ((ns.sum : ℕ) : ℝ)) :
    (e.renderSeq ns).state = .idle ∧ (e.renderSeq ns).level = 0 ∧
      (e.renderSeq ns).is_active = false ∧
      ∀ m : ℕ, (∀ v ∈ (e.renderSeq ns).renderOut m, v = 0) ∧
        ((e.renderSeq ns).renderState m).state = .idle ∧
        ((e.renderSeq ns).renderState m).level = 0 := by
  have hR44 := rate_lb e.release
  have hmain := release_chunks ((ns.map chunkSizes).flatten) e (join_chunks_le ns) hst
  rw [renderSeq_chunks ns e]
  rcases hmain with ⟨hs, hl0⟩ | ⟨hs, hb, hlast⟩
  · refine ⟨hs, hl0, ?_, ?_⟩
    · simp only [ADSR.is_active, hs]
      decide
    · intro m
      exact renderOut_idle_zero _ m hs hl0
  · exfalso
    have hsumflat : ((((ns.map chunkSizes).flatten).sum : ℕ) : ℝ) = ((ns.sum : ℕ) : ℝ) := by
      rw [join_chunks_sum]
    rcases hlast with h0 | hthr
    · rw [h0] at hsumflat
      simp only [List.sum_nil, Nat.cast_zero] at hsumflat
      rw [← hsumflat] at hsum
      linarith
    · have hmaxle : max e.level 0 ≤ 1 := max_le hl zero_le_one
      have hdiv : (12 : ℝ) ≤ ((((ns.map chunkSizes).flatten).sum : ℕ) : ℝ) /
          (max e.release MIN_TIME * SAMPLE_RATE) := by
        rw [le_div_iff₀ (by linarith)]
        rw [hsumflat]
        linarith
      have hexple : Real.exp (-((((ns.map chunkSizes).flatten).sum : ℕ) : ℝ) /
          (max e.release MIN_TIME * SAMPLE_RATE)) ≤ Real.exp (-12) := by
        apply Real.exp_le_exp.mpr
        rw [neg_div]
        linarith
      have hfinal : ((((ns.map chunkSizes).flatten)).foldl ADSR.advance e).level < 1e-5 := by
        calc ((((ns.map chunkSizes).flatten)).foldl ADSR.advance e).level
            ≤ max e.level 0 * Real.exp (-((((ns.map chunkSizes).flatten).sum : ℕ) : ℝ) /
                (max e.release MIN_TIME * SAMPLE_RATE)) := hb
          _ ≤ 1 * Real.exp (-12) :=
              mul_le_mul hmaxle hexple (Real.exp_nonneg _) zero_le_one
          _ < 1e-5 := by rw [one_mul]; exact exp_neg_twelve_lt
      linarith

/-- A held envelope about to be released: decay state at full level. -/
noncomputable def relEnvPre : ADSR :=
  { attack := 0.01, decay := 0.1, sustain := 0.7, release := 0,
    state := .decay, level := 1, samples_in_state := 5 }

/-- The envelope of `relEnvPre` immediately after `gate_off`. -/
noncomputable def relEnv : ADSR := relEnvPre.gate_off

/-- `gate_off` sends the held envelope into the release state at level 1. -/
lemma relEnv_eq : relEnv =
    { attack := 0.01, decay := 0.1, sustain := 0.7, release := 0,
      state := .release, level := 1, samples_in_state := 0 } := by
  unfold relEnv relEnvPre ADSR.gate_off
  norm_num
  decide

/-- C4 (counterexample): the claim's sample count is insufficient.  With
release 0 (so the effective release time is `MIN_TIME` and the claimed bound
is `max(release, MIN_TIME) * SAMPLE_RATE = 44.1` samples), rendering 45 ≥ 44.1
samples immediately after `gate_off` from level 1 leaves the envelope still
active in the release state at level `(281/441)^2 * (311/441) ≈ 0.286`, not
idle at level 0: the proportional decay only shrinks the level by about
`e^{-1}` over one claimed period. -/
theorem adsr_release_claim_cex :
    max relEnv.release MIN_TIME * SAMPLE_RATE ≤ 45 ∧
      (relEnv.renderState 45).is_active = true ∧
      (relEnv.renderState 45).state = EnvPhase.release ∧
      (relEnv.renderState 45).level ≠ 0 := by
  have hch : chunkSizes 45 = [16, 16, 13] := rfl
  have hcomp : relEnv.renderState 45 =
      { attack := 0.01, decay := 0.1, sustain := 0.7, release := 0,
        state := .release, level := 24556871 / 85766121, samples_in_state := 45 } := by
    unfold ADSR.renderState
    rw [relEnv_eq, hch]
    norm_num [List.foldl_cons, List.foldl_nil, ADSR.advance, MIN_TIME, SAMPLE_RATE,
      max_def]
  refine ⟨?_, ?_, ?_, ?_⟩
  · rw [relEnv_eq]
    norm_num [MIN_TIME, SAMPLE_RATE, max_def]
  · rw [hcomp]
    rfl
  · rw [hcomp]
  · rw [hcomp]
    norm_num

/-- Witness for `adsr_release_idle_after_12x` at a concrete envelope. -/
theorem adsr_release_idle_after_12x_witness :
    relEnv.state = EnvPhase.release ∧ relEnv.level ≤ 1 ∧
      12 * (max relEnv.release MIN_TIME * SAMPLE_RATE) ≤
        ((([530] : List ℕ).sum : ℕ) : ℝ) ∧
      ((relEnv.renderSeq [530]).state = .idle ∧ (relEnv.renderSeq [530]).level = 0 ∧
        (relEnv.renderSeq [530]).is_active = false ∧
        ∀ m : ℕ, (∀ v ∈ (relEnv.renderSeq [530]).renderOut m, v = 0) ∧
          ((relEnv.renderSeq [530]).renderState m).state = .idle ∧
          ((relEnv.renderSeq [530]).renderState m).level = 0) := by
  have h1 : relEnv.state = EnvPhase.release := by rw [relEnv_eq]
  have h2 : relEnv.level ≤ 1 := by rw [relEnv_eq]
  have h3 : 12 * (max relEnv.release MIN_TIME * SAMPLE_RATE) ≤
      ((([530] : List ℕ).sum : ℕ) : ℝ) := by
    rw [relEnv_eq]
    norm_num [MIN_TIME, SAMPLE_RATE, max_def]
  exact ⟨h1, h2, h3, adsr_release_idle_after_12x relEnv [530] h1 h2 h3⟩

/-! ## Audio engine (`synth/engine/audio_engine.py`) -/

/-- Where a MIDI event ends up: a channel of the `self.channels` list, or an
`IndexError` escaping from the list access. -/
inductive DispatchResult
  | channel (i : ℕ)
  | indexError
deriving DecidableEq

/-- The channel selection of `_process_midi` (audio_engine.py lines 67–71):
`ch_idx = msg.get("channel", 0)`, then `if ch_idx >= NUM_CHANNELS: ch_idx = 0`,
then the Python list access `self.channels[ch_idx]`, which wraps negative
indices of magnitude at most the list length and raises `IndexError` below
that.  `none` models an event with no `channel` field. -/
def processMidiChannel (ch : Option ℤ) : DispatchResult :=
  let c0 : ℤ := ch.getD 0
  let c : ℤ := if (NUM_CHANNELS : ℤ) ≤ c0 then 0 else c0
  if 0 ≤ c then .channel c.toNat
  else if -(NUM_CHANNELS : ℤ) ≤ c then .channel (c + NUM_CHANNELS).toNat
  else .indexError

/-- C5: an event carrying channel −1 is dispatched to channel 3 (the last
channel, by Python negative indexing), not dropped and not sent to channel 0;
an event carrying channel −5 raises `IndexError` out of the callback.
In-range and too-large channels behave as specified (identity, resp. 0). -/
theorem process_midi_negative_channel :
    processMidiChannel (some (-1)) = DispatchResult.channel 3 ∧
      processMidiChannel (some (-1)) ≠ DispatchResult.channel 0 ∧
      processMidiChannel (some (-5)) = DispatchResult.indexError ∧
      processMidiChannel (some 2) = DispatchResult.channel 2 ∧
      processMidiChannel (some 7) = DispatchResult.channel 0 ∧
      processMidiChannel none = DispatchResult.channel 0 := by
  decide

/-- The per-sample channel mix of `_audio_callback` (audio_engine.py lines
51–53): the output buffer starts at zero and accumulates every channel's
rendered buffer. -/
noncomputable def callbackMix (chs : List (ℕ → ℝ)) (i : ℕ) : ℝ :=
  chs.foldl (fun acc ch => acc + ch i) 0

/-- One sample written to the device buffer (lines 55–58 and 63): the mix
scaled by the master volume, soft-clipped by `tanh`. -/
noncomputable def callbackSample (chs : List (ℕ → ℝ)) (mv : ℝ) (i : ℕ) : ℝ :=
  Real.tanh (mv * callbackMix chs i)

/-- `self._peak_level` after the callback (line 61): `np.max(np.abs(out))`
over the block.  (For a nonempty block of absolute values the fold seed 0
never exceeds the true maximum.) -/
noncomputable def callbackPeak (chs : List (ℕ → ℝ)) (mv : ℝ) (frames : ℕ) : ℝ :=
  ((List.range frames).map fun i : ℕ => |callbackSample chs mv i|).foldl max 0

/-- The hyperbolic tangent soft clip keeps every sample strictly inside
`(-1, 1)`. -/
lemma abs_tanh_lt_one (x : ℝ) : |Real.tanh x| < 1 := by
  have hc := Real.cosh_pos x
  rw [Real.tanh_eq_sinh_div_cosh, abs_div, abs_of_pos hc, div_lt_one hc]
  have h1 : Real.cosh x - Real.sinh x = Real.exp (-x) := Real.cosh_sub_sinh x
  have h2 : Real.cosh x + Real.sinh x = Real.exp x := Real.cosh_add_sinh x
  have h3 := Real.exp_pos (-x)
  have h4 := Real.exp_pos x
  rcases abs_cases (Real.sinh x) with ⟨heq, _⟩ | ⟨heq, _⟩ <;> rw [heq] <;> linarith

/-- The seed of a left `max` fold never exceeds its result. -/
lemma le_foldl_max (l : List ℝ) : ∀ a : ℝ, a ≤ l.foldl max a := by
  induction l with
  | nil => intro a; exact le_refl a
  | cons x l ih =>
      intro a
      rw [List.foldl_cons]
      exact (le_max_left a x).trans (ih (max a x))

/-- Every element of a list is at most its left `max` fold. -/
lemma mem_le_foldl_max (l : List ℝ) : ∀ (a x : ℝ), x ∈ l → x ≤ l.foldl max a := by
  induction l with
  | nil => intro a x hx; simp at hx
  | cons y l ih =>
      intro a x hx
      rw [List.foldl_cons]
      rcases List.mem_cons.mp hx with rfl | hx
      · exact (le_max_right a x).trans (le_foldl_max l (max a x))
      · exact ih (max a y) x hx

/-- A left `max` fold is either its seed or one of the elements. -/
lemma foldl_max_cases (l : List ℝ) : ∀ a : ℝ, l.foldl max a = a ∨ l.foldl max a ∈ l := by
  induction l with
  | nil => intro a; exact Or.inl rfl
  | cons x l ih =>
      intro a
      rw [List.foldl_cons]
      rcases ih (max a x) with h | h
      · rcases max_cases a x with ⟨hm, _⟩ | ⟨hm, _⟩
        · exact Or.inl (h.trans hm)
        · right
          rw [h, hm]
          exact List.mem_cons_self x l
      · exact Or.inr (List.mem_cons_of_mem x h)

/-- C9: every sample written to the device buffer equals
`tanh(master_volume * mixed_sample)` and hence has absolute value at most 1,
and after the callback the peak level is the maximum absolute sample of the
block, so it is at most 1. -/
theorem audio_callback_soft_clip (chs : List (ℕ → ℝ)) (mv : ℝ) (frames : ℕ)
    (hf : 1 ≤ frames) :
    (∀ i : ℕ, callbackSample chs mv i = Real.tanh (mv * callbackMix chs i) ∧
        |callbackSample chs mv i| ≤ 1) ∧
      (∀ i < frames, |callbackSample chs mv i| ≤ callbackPeak chs mv frames) ∧
      (∃ i < frames, callbackPeak chs mv frames = |callbackSample chs mv i|) ∧
      callbackPeak chs mv frames ≤ 1 := by
  have habs : ∀ i : ℕ, |callbackSample chs mv i| ≤ 1 := fun i =>
    (abs_tanh_lt_one (mv * callbackMix chs i)).le
  have hub : ∀ i < frames, |callbackSample chs mv i| ≤ callbackPeak chs mv frames := by
    intro i hi
    apply mem_le_foldl_max
    rw [List.mem_map]
    exact ⟨i, List.mem_range.mpr hi, rfl⟩
  have hex : ∃ i < frames, callbackPeak chs mv frames = |callbackSample chs mv i| := by
    rcases foldl_max_cases
        ((List.range frames).map fun i : ℕ => |callbackSample chs mv i|) 0 with h | h
    · refine ⟨0, hf, ?_⟩
      have h0 := hub 0 hf
      have h0' : 0 ≤ |callbackSample chs mv 0| := abs_nonneg _
      rw [callbackPeak] at h0 ⊢
      rw [h] at h0 ⊢
      linarith
    · rw [List.mem_map] at h
      obtain ⟨i, hi, hvi⟩ := h
      exact ⟨i, List.mem_range.mp hi, hvi.symm⟩
  refine ⟨fun i => ⟨rfl, habs i⟩, hub, hex, ?_⟩
  obtain ⟨i, _, hpi⟩ := hex
  rw [hpi]
  exact habs i

/-- Witness for `audio_callback_soft_clip` at a concrete block. -/
theorem audio_callback_soft_clip_witness :
    (∀ i : ℕ, callbackSample [fun _ => 2] 0.8 i =
        Real.tanh (0.8 * callbackMix [fun _ => 2] i) ∧
        |callbackSample [fun _ => 2] 0.8 i| ≤ 1) ∧
      (∀ i < 4, |callbackSample [fun _ => 2] 0.8 i| ≤ callbackPeak [fun _ => 2] 0.8 4) ∧
      (∃ i < 4, callbackPeak [fun _ => 2] 0.8 4 = |callbackSample [fun _ => 2] 0.8 i|) ∧
      callbackPeak [fun _ => 2] 0.8 4 ≤ 1 :=
  audio_callback_soft_clip [fun _ => 2] 0.8 4 (by norm_num)

/-! ## Oscillator (`synth/dsp/oscillator.py`) -/

/-- The four waveforms.  In the source the tables live in a string-keyed
dict and `_TABLES.get(self.waveform, _TABLES["saw"])` falls back to saw for
unknown keys; the four valid keys are modelled as an enumeration. -/
inductive Waveform
  | sine
  | saw
  | square
  | triangle
deriving DecidableEq

/-- `phase[j] = j / WAVETABLE_SIZE` (oscillator.py line 9:
`np.linspace(0.0, 1.0, WAVETABLE_SIZE, endpoint=False)`). -/
noncomputable def tablePhase (j : ℕ) : ℝ := (j : ℝ) / WAVETABLE_SIZE

/-- The sine table (line 11). -/
noncomputable def sineTable (j : ℕ) : ℝ := Real.sin (2 * Real.pi * tablePhase j)

/-- The saw table (lines 13–16): harmonics `k = 1..63` with alternating sign
`(-1)^(k+1)`, scaled by `2/pi`.  The loop index `k` appears as `k+1` for
`k ∈ range 63`. -/
noncomputable def sawTable (j : ℕ) : ℝ :=
  (∑ k in Finset.range 63,
      (-1 : ℝ) ^ (k + 1 + 1) *
        Real.sin (2 * Real.pi * ((k : ℝ) + 1) * tablePhase j) / ((k : ℝ) + 1)) *
    (2 / Real.pi)

/-- The square table (lines 18–21): odd harmonics `k = 1, 3, …, 63`
(written `2*i+1` for `i ∈ range 32`), scaled by `4/pi`. -/
noncomputable def squareTable (j : ℕ) : ℝ :=
  (∑ i in Finset.range 32,
      Real.sin (2 * Real.pi * (2 * (i : ℝ) + 1) * tablePhase j) /
        (2 * (i : ℝ) + 1)) * (4 / Real.pi)

/-- The triangle table (lines 23–27): odd harmonics with sign
`(-1)^((k-1)/2) = (-1)^i`, scaled by `8/pi^2`. -/
noncomputable def triangleTable (j : ℕ) : ℝ :=
  (∑ i in Finset.range 32,
      (-1 : ℝ) ^ i * Real.sin (2 * Real.pi * (2 * (i : ℝ) + 1) * tablePhase j) /
        ((2 * (i : ℝ) + 1) * (2 * (i : ℝ) + 1))) * (8 / (Real.pi * Real.pi))

/-- Table selection by waveform. -/
noncomputable def tableOf : Waveform → ℕ → ℝ
  | .sine => sineTable
  | .saw => sawTable
  | .square => squareTable
  | .triangle => triangleTable

/-- The largest absolute entry of a wavetable. -/
noncomputable def tableMax (w : Waveform) : ℝ :=
  (Finset.range WAVETABLE_SIZE).sup'
    (Finset.nonempty_range_iff.mpr (by norm_num [WAVETABLE_SIZE]))
    fun j => |tableOf w j|

/-- Every table entry used by a lookup is bounded by `tableMax`. -/
lemma abs_table_le (w : Waveform) (j : ℕ) (hj : j < WAVETABLE_SIZE) :
    |tableOf w j| ≤ tableMax w := by
  unfold tableMax
  exact Finset.le_sup' (fun j => |tableOf w j|) (Finset.mem_range.mpr hj)

/-- `Oscillator` (oscillator.py lines 35–43). -/
structure Oscillator where
  waveform : Waveform := .saw
  octave : ℤ := 0
  semitone : ℤ := 0
  detune : ℝ := 0
  level : ℝ := 1
  pulse_width : ℝ := 0.5
  phase : ℝ := 0

/-- The effective oscillator frequency (line 48):
`freq * 2^octave * 2^(semitone/12) * 2^(detune/1200)`. -/
noncomputable def Oscillator.freqOf (o : Oscillator) (freq : ℝ) : ℝ :=
  freq * (2 : ℝ) ^ o.octave * (2 : ℝ) ^ (((o.semitone : ℤ) : ℝ) / 12) *
    (2 : ℝ) ^ (o.detune / 1200)

/-- The per-sample phase increments (lines 56–61): with pitch modulation in
semitones, `f * 2^(mod/12) / SAMPLE_RATE`; otherwise the constant
`f / SAMPLE_RATE`. -/
noncomputable def Oscillator.increments (o : Oscillator) (freq : ℝ)
    (pitch_mod : Option (ℕ → ℝ)) : ℕ → ℝ :=
  match pitch_mod with
  | some m => fun i => o.freqOf freq * (2 : ℝ) ^ (m i / 12) / SAMPLE_RATE
  | none => fun _ => o.freqOf freq / SAMPLE_RATE

/-- `cumulative[i]` (line 65): the inclusive prefix sum of the increments. -/
noncomputable def Oscillator.cumulative (o : Oscillator) (freq : ℝ)
    (pitch_mod : Option (ℕ → ℝ)) (i : ℕ) : ℝ :=
  ∑ j in Finset.range (i + 1), o.increments freq pitch_mod j

/-- `phases[i]` (line 66): `(phase + cumulative[i] - increments[i]) % 1.0`. -/
noncomputable def Oscillator.phases (o : Oscillator) (freq : ℝ)
    (pitch_mod : Option (ℕ → ℝ)) (i : ℕ) : ℝ :=
  Int.fract (o.phase + o.cumulative freq pitch_mod i - o.increments freq pitch_mod i)

/-- One interpolated wavetable lookup (lines 70–75) at phase value `p`:
`idx_f = p * WAVETABLE_SIZE`, truncation to integer (equal to the floor for
the nonnegative phases produced by `% 1.0`), fractional blend of the two
adjacent entries, indices reduced mod `WAVETABLE_SIZE`. -/
noncomputable def tableLookup (w : Waveform) (p : ℝ) : ℝ :=
  let idx_f := p * (WAVETABLE_SIZE : ℝ)
  let idx_i := ⌊idx_f⌋
  let frac := idx_f - idx_i
  tableOf w ((idx_i % (WAVETABLE_SIZE : ℤ)).toNat) * (1 - frac) +
    tableOf w (((idx_i + 1) % (WAVETABLE_SIZE : ℤ)).toNat) * frac

/-- `Oscillator.render` (lines 45–77): when `level ≤ 0` return a zero buffer
and leave the oscillator untouched (lines 49–50); otherwise look the
accumulated phases up in the wavetable, scale by `level`, and store
`(phase + cumulative[-1]) % 1.0` (line 67). -/
noncomputable def Oscillator.render (o : Oscillator) (freq : ℝ) (n : ℕ)
    (pitch_mod : Option (ℕ → ℝ)) : List ℝ × Oscillator :=
  if o.level ≤ 0 then (List.replicate n 0, o)
  else
    ((List.range n).map fun i : ℕ =>
        tableLookup o.waveform (o.phases freq pitch_mod i) * o.level,
      { o with phase := Int.fract (o.phase + o.cumulative freq pitch_mod (n - 1)) })

/-- `Oscillator.reset_phase` (lines 79–80). -/
noncomputable def Oscillator.reset_phase (o : Oscillator) : Oscillator :=
  { o with phase := 0 }

/-- C7: if the oscillator's level is 0, `render` returns `n` exact zeros and
leaves every field of the oscillator (in particular the phase) unchanged. -/
theorem osc_render_level_zero (o : Oscillator) (freq : ℝ) (n : ℕ)
    (pitch_mod : Option (ℕ → ℝ)) (h : o.level = 0) :
    o.render freq n pitch_mod = (List.replicate n 0, o) := by
  unfold Oscillator.render
  rw [if_pos (le_of_eq h)]

/-- Witness for `osc_render_level_zero` at a concrete oscillator. -/
theorem osc_render_level_zero_witness :
    ({ level := 0 } : Oscillator).level = 0 ∧
      ({ level := 0 } : Oscillator).render 440 3 none =
        (List.replicate 3 0, ({ level := 0 } : Oscillator)) :=
  ⟨rfl, osc_render_level_zero { level := 0 } 440 3 none rfl⟩

/-- The phase of sample `i` is the start phase plus the increments of the
samples before it, reduced mod 1: the inclusive prefix sum minus the own
increment telescopes to the exclusive prefix sum. -/
lemma phases_eq (o : Oscillator) (freq : ℝ) (pitch_mod : Option (ℕ → ℝ)) (i : ℕ) :
    o.phases freq pitch_mod i =
      Int.fract (o.phase + ∑ j in Finset.range i, o.increments freq pitch_mod j) := by
  unfold Oscillator.phases Oscillator.cumulative
  congr 1
  rw [Finset.sum_range_succ]
  ring

/-- The state-changing oscillator calls of claim C6. -/
inductive OscCall
  | render (freq : ℝ) (n : ℕ) (pitch_mod : Option (ℕ → ℝ))
  | resetPhase

/-- Apply one oscillator call to the oscillator state. -/
noncomputable def applyOscCall (o : Oscillator) : OscCall → Oscillator
  | .render freq n pitch_mod => (o.render freq n pitch_mod).2
  | .resetPhase => o.reset_phase

/-- Each call keeps the stored phase inside `[0, 1)`. -/
lemma applyOscCall_phase (o : Oscillator) (c : OscCall)
    (h0 : 0 ≤ o.phase) (h1 : o.phase < 1) :
    0 ≤ (applyOscCall o c).phase ∧ (applyOscCall o c).phase < 1 := by
  cases c with
  | render freq n pitch_mod =>
      unfold applyOscCall Oscillator.render
      split_ifs with h
      · exact ⟨h0, h1⟩
      · exact ⟨Int.fract_nonneg _, Int.fract_lt_one _⟩
  | resetPhase => constructor <;> simp [applyOscCall, Oscillator.reset_phase]

/-- C6: the oscillator phase accumulator invariant.  Starting from phase 0,
after any sequence of `render` and `reset_phase` calls the stored phase lies
in `[0, 1)`; and within one render call the phase of sample `i` equals
`(phase_0 + sum of increments for samples j < i) mod 1`, with
`increment_j = freq_j / SAMPLE_RATE`. -/
theorem osc_phase_invariant :
    (∀ (o : Oscillator) (calls : List OscCall), o.phase = 0 →
        0 ≤ (calls.foldl applyOscCall o).phase ∧
          (calls.foldl applyOscCall o).phase < 1) ∧
      ∀ (o : Oscillator) (freq : ℝ) (pitch_mod : Option (ℕ → ℝ)) (i : ℕ),
        o.phases freq pitch_mod i =
          Int.fract (o.phase + ∑ j in Finset.range i, o.increments freq pitch_mod j) := by
  constructor
  · have hstep : ∀ (calls : List OscCall) (o : Oscillator),
        0 ≤ o.phase → o.phase < 1 →
        0 ≤ (calls.foldl applyOscCall o).phase ∧
          (calls.foldl applyOscCall o).phase < 1 := by
      intro calls
      induction calls with
      | nil => intro o h0 h1; exact ⟨h0, h1⟩
      | cons c cs ih =>
          intro o h0 h1
          rw [List.foldl_cons]
          have h := applyOscCall_phase o c h0 h1
          exact ih (applyOscCall o c) h.1 h.2
    intro o calls h0
    exact hstep calls o (le_of_eq h0.symm) (by rw [h0]; norm_num)
  · exact phases_eq

/-- Witness for `osc_phase_invariant` at a concrete call sequence. -/
theorem osc_phase_invariant_witness :
    (0 ≤ (([OscCall.render 440 2 none, OscCall.resetPhase,
          OscCall.render 330 3 none].foldl applyOscCall {}).phase) ∧
        ([OscCall.render 440 2 none, OscCall.resetPhase,
          OscCall.render 330 3 none].foldl applyOscCall
            ({} : Oscillator)).phase < 1) ∧
      ({} : Oscillator).phases 440 none 1 =
        Int.fract (({} : Oscillator).phase +
          ∑ j in Finset.range 1, ({} : Oscillator).increments 440 none j) :=
  ⟨osc_phase_invariant.1 {} _ rfl, osc_phase_invariant.2 {} 440 none 1⟩

/-- Any interpolated lookup is bounded by the largest absolute table entry:
the two picked indices are reduced mod `WAVETABLE_SIZE`, and the blend is a
convex combination because the fractional part lies in `[0, 1)`. -/
lemma tableLookup_abs_le (w : Waveform) (p : ℝ) :
    |tableLookup w p| ≤ tableMax w := by
  simp only [tableLookup]
  have hNpos : (0 : ℤ) < (WAVETABLE_SIZE : ℤ) := by norm_num [WAVETABLE_SIZE]
  have hi1 : ((⌊p * (WAVETABLE_SIZE : ℝ)⌋ % (WAVETABLE_SIZE : ℤ)).toNat) <
      WAVETABLE_SIZE := by
    have h0 := Int.emod_nonneg ⌊p * (WAVETABLE_SIZE : ℝ)⌋ hNpos.ne.symm
    have h1 := Int.emod_lt_of_pos ⌊p * (WAVETABLE_SIZE : ℝ)⌋ hNpos
    omega
  have hi2 : (((⌊p * (WAVETABLE_SIZE : ℝ)⌋ + 1) % (WAVETABLE_SIZE : ℤ)).toNat) <
      WAVETABLE_SIZE := by
    have h0 := Int.emod_nonneg (⌊p * (WAVETABLE_SIZE : ℝ)⌋ + 1) hNpos.ne.symm
    have h1 := Int.emod_lt_of_pos (⌊p * (WAVETABLE_SIZE : ℝ)⌋ + 1) hNpos
    omega
  set fr := p * (WAVETABLE_SIZE : ℝ) - ↑⌊p * (WAVETABLE_SIZE : ℝ)⌋ with hfrdef
  have hfr0 : 0 ≤ fr := by
    rw [hfrdef]
    exact sub_nonneg.mpr (Int.floor_le _)
  have hfr1 : fr < 1 := by
    rw [hfrdef]
    linarith [Int.lt_floor_add_one (p * (WAVETABLE_SIZE : ℝ))]
  set A := tableOf w ((⌊p * (WAVETABLE_SIZE : ℝ)⌋ % (WAVETABLE_SIZE : ℤ)).toNat)
    with hAdef
  set B := tableOf w (((⌊p * (WAVETABLE_SIZE : ℝ)⌋ + 1) % (WAVETABLE_SIZE : ℤ)).toNat)
    with hBdef
  have hA : |A| ≤ tableMax w := by
    rw [hAdef]
    exact abs_table_le w _ hi1
  have hB : |B| ≤ tableMax w := by
    rw [hBdef]
    exact abs_table_le w _ hi2
  have h1 : |A * (1 - fr) + B * fr| ≤ |A| * (1 - fr) + |B| * fr := by
    calc |A * (1 - fr) + B * fr| ≤ |A * (1 - fr)| + |B * fr| := abs_add _ _
      _ = |A| * (1 - fr) + |B| * fr := by
          rw [abs_mul, abs_mul, abs_of_nonneg (by linarith : (0 : ℝ) ≤ 1 - fr),
            abs_of_nonneg hfr0]
  have h2 : |A| * (1 - fr) + |B| * fr ≤ tableMax w * (1 - fr) + tableMax w * fr :=
    add_le_add (mul_le_mul_of_nonneg_right hA (by linarith))
      (mul_le_mul_of_nonneg_right hB hfr0)
  have h3 : tableMax w * (1 - fr) + tableMax w * fr = tableMax w := by ring
  linarith

/-- C3 (amended): `render` returns exactly `n` values, each of magnitude at
most `level` times the largest absolute entry of the selected wavetable.
(The plain `[-level, level]` bound of the claim fails: the truncated Fourier
series of the saw table overshoots 1, see the counterexample.) -/
theorem osc_render_bounds (o : Oscillator) (freq : ℝ) (n : ℕ)
    (pitch_mod : Option (ℕ → ℝ)) (hn : 1 ≤ n) (hlev : 0 ≤ o.level) :
    (o.render freq n pitch_mod).1.length = n ∧
      ∀ v ∈ (o.render freq n pitch_mod).1, |v| ≤ o.level * tableMax o.waveform := by
  have hM0 : (0 : ℝ) ≤ tableMax o.waveform :=
    le_trans (abs_nonneg _) (abs_table_le o.waveform 0 (by norm_num [WAVETABLE_SIZE]))
  unfold Oscillator.render
  split_ifs with h
  · refine ⟨List.length_replicate _ _, ?_⟩
    intro v hv
    rcases List.eq_of_mem_replicate hv with rfl
    rw [abs_zero]
    exact mul_nonneg hlev hM0
  · refine ⟨by rw [List.length_map, List.length_range], ?_⟩
    intro v hv
    rw [List.mem_map] at hv
    obtain ⟨i, _, rfl⟩ := hv
    rw [abs_mul, abs_of_nonneg hlev, mul_comm]
    exact mul_le_mul_of_nonneg_left
      (tableLookup_abs_le o.waveform (o.phases freq pitch_mod i)) hlev

/-- Witness for `osc_render_bounds` at a concrete oscillator and call. -/
theorem osc_render_bounds_witness :
    (1 ≤ 4 ∧ 0 ≤ ({} : Oscillator).level) ∧
      (({} : Oscillator).render 440 4 none).1.length = 4 ∧
      ∀ v ∈ (({} : Oscillator).render 440 4 none).1,
        |v| ≤ ({} : Oscillator).level * tableMax ({} : Oscillator).waveform :=
  ⟨⟨by norm_num, by norm_num⟩, osc_render_bounds {} 440 4 none (by norm_num) (by norm_num)⟩

/-! ### Gibbs overshoot of the truncated saw series

The saw table entry at index 1040 is `-(2/π) · Σ_{k=1}^{63} sin(kπ/64)/k`,
and the partial sum exceeds `π/2`, so the entry lies below −1.  Each
`sin(kπ/64)` is bounded from below through the double angle formula at
`kπ/128 ∈ [0, 1]` using Mathlib's quartic Taylor bounds. -/

/-- Double-angle engine for the numeric sine bounds: if `y ∈ [yl, yh] ⊆
[0, 1]` and the rationals `A`, `B` sit below the quartic Taylor lower bounds
of `sin y` and `cos y` (`Real.sin_bound` / `Real.cos_bound`), then
`sin (2y) = 2 sin y cos y ≥ 2 A B`. -/
lemma sin_two_mul_lb (y A B yl yh : ℝ)
    (hyl : yl ≤ y) (hyh : y ≤ yh) (hyl0 : 0 ≤ yl) (hyh1 : yh ≤ 1)
    (hA0 : 0 ≤ A) (hB0 : 0 ≤ B)
    (hA : A ≤ yl - yh ^ 3 / 6 - yh ^ 4 * (5 / 96))
    (hB : B ≤ 1 - yh ^ 2 / 2 - yh ^ 4 * (5 / 96)) :
    2 * A * B ≤ Real.sin (2 * y) := by
  have h0y : 0 ≤ y := le_trans hyl0 hyl
  have hy1 : y ≤ 1 := le_trans hyh hyh1
  have h2 : y ^ 2 ≤ yh ^ 2 := pow_le_pow_left h0y hyh 2
  have h3 : y ^ 3 ≤ yh ^ 3 := pow_le_pow_left h0y hyh 3
  have h4 : y ^ 4 ≤ yh ^ 4 := pow_le_pow_left h0y hyh 4
  have habs : |y| ≤ 1 := by
    rw [abs_of_nonneg h0y]
    exact hy1
  have hs := Real.sin_bound habs
  have hc := Real.cos_bound habs
  rw [abs_of_nonneg h0y] at hs hc
  have hs' := abs_le.mp hs
  have hc' := abs_le.mp hc
  have hsA : A ≤ Real.sin y := by linarith [hs'.1]
  have hcB : B ≤ Real.cos y := by linarith [hc'.1]
  have hsin0 : 0 ≤ Real.sin y := le_trans hA0 hsA
  rw [Real.sin_two_mul]
  have hmul := mul_le_mul hsA hcB hB0 hsin0
  linarith

/-- Numeric lower bound for `sin(1π/64)` via the double angle at `1π/128`. -/
lemma sinLB1 : (0.0490676 : ℝ) ≤ Real.sin (Real.pi / 64) := by
  have hpl := Real.pi_gt_d6
  have hpu := Real.pi_lt_d6
  have harg : Real.pi / 64 = 2 * (Real.pi / 128) := by ring
  rw [harg]
  have h := sin_two_mul_lb (Real.pi / 128) 0.0245412 0.9996987
      (3.141592 / 128) (3.141593 / 128)
      (by linarith) (by linarith) (by norm_num) (by norm_num)
      (by norm_num) (by norm_num) (by norm_num) (by norm_num)
  linarith

/-- Numeric lower bound for `sin(2π/64)` via the double angle at `2π/128`. -/
lemma sinLB2 : (0.0980163 : ℝ) ≤ Real.sin (2 * Real.pi / 64) := by
  have hpl := Real.pi_gt_d6
  have hpu := Real.pi_lt_d6
  have harg : (2 : ℝ) * Real.pi / 64 = 2 * (2 * Real.pi / 128) := by ring
  rw [harg]
  have h := sin_two_mul_lb (2 * Real.pi / 128) 0.0490673 0.9987949
      (2 * 3.141592 / 128) (2 * 3.141593 / 128)
      (by linarith) (by linarith) (by norm_num) (by norm_num)
      (by norm_num) (by norm_num) (by norm_num) (by norm_num)
  linarith

/-- Numeric lower bound for `sin(3π/64)` via the double angle at `3π/128`. -/
lemma sinLB3 : (0.1467267 : ℝ) ≤ Real.sin (3 * Real.pi / 64) := by
  have hpl := Real.pi_gt_d6
  have hpu := Real.pi_lt_d6
  have harg : (3 : ℝ) * Real.pi / 64 = 2 * (3 * Real.pi / 128) := by ring
  rw [harg]
  have h := sin_two_mul_lb (3 * Real.pi / 128) 0.0735629 0.9972877
      (3 * 3.141592 / 128) (3 * 3.141593 / 128)
      (by linarith) (by linarith) (by norm_num) (by norm_num)
      (by norm_num) (by norm_num) (by norm_num) (by norm_num)
  linarith

/-- Numeric lower bound for `sin(4π/64)` via the double angle at `4π/128`. -/
lemma sinLB4 : (0.1950787 : ℝ) ≤ Real.sin (4 * Real.pi / 64) := by
  have hpl := Real.pi_gt_d6
  have hpu := Real.pi_lt_d6
  have harg : (4 : ℝ) * Real.pi / 64 = 2 * (4 * Real.pi / 128) := by ring
  rw [harg]
  have h := sin_two_mul_lb (4 * Real.pi / 128) 0.0980122 0.9951760
      (4 * 3.141592 / 128) (4 * 3.141593 / 128)
      (by linarith) (by linarith) (by norm_num) (by norm_num)
      (by norm_num) (by norm_num) (by norm_num) (by norm_num)
  linarith

/-- Numeric lower bound for `sin(5π/64)` via the double angle at `5π/128`. -/
lemma sinLB5 : (0.2429509 : ℝ) ≤ Real.sin (5 * Real.pi / 64) := by
  have hpl := Real.pi_gt_d6
  have hpu := Real.pi_lt_d6
  have harg : (5 : ℝ) * Real.pi / 64 = 2 * (5 * Real.pi / 128) := by ring
  rw [harg]
  have h := sin_two_mul_lb (5 * Real.pi / 128) 0.1223986 0.9924582
      (5 * 3.141592 / 128) (5 * 3.141593 / 128)
      (by linarith) (by linarith) (by norm_num) (by norm_num)
      (by norm_num) (by norm_num) (by norm_num) (by norm_num)
  linarith

/-- Numeric lower bound for `sin(6π/64)` via the double angle at `6π/128`. -/
lemma sinLB6 : (0.2902219 : ℝ) ≤ Real.sin (6 * Real.pi / 64) := by
  have hpl := Real.pi_gt_d6
  have hpu := Real.pi_lt_d6
  have harg : (6 : ℝ) * Real.pi / 64 = 2 * (6 * Real.pi / 128) := by ring
  rw [harg]
  have h := sin_two_mul_lb (6 * Real.pi / 128) 0.1467053 0.9891324
      (6 * 3.141592 / 128) (6 * 3.141593 / 128)
      (by linarith) (by linarith) (by norm_num) (by norm_num)
      (by norm_num) (by norm_num) (by norm_num) (by norm_num)
  linarith

/-- Numeric lower bound for `sin(7π/64)` via the double angle at `7π/128`. -/
lemma sinLB7 : (0.3367699 : ℝ) ≤ Real.sin (7 * Real.pi / 64) := by
  have hpl := Real.pi_gt_d6
  have hpu := Real.pi_lt_d6
  have harg : (7 : ℝ) * Real.pi / 64 = 2 * (7 * Real.pi / 128) := by ring
  rw [harg]
  have h := sin_two_mul_lb (7 * Real.pi / 128) 0.1709152 0.9851959
      (7 * 3.141592 / 128) (7 * 3.141593 / 128)
      (by linarith) (by linarith) (by norm_num) (by norm_num)
      (by norm_num) (by norm_num) (by norm_num) (by norm_num)
  linarith

/-- Numeric lower bound for `sin(8π/64)` via the double angle at `8π/128`. -/
lemma sinLB8 : (0.3824723 : ℝ) ≤ Real.sin (8 * Real.pi / 64) := by
  have hpl := Real.pi_gt_d6
  have hpu := Real.pi_lt_d6
  have harg : (8 : ℝ) * Real.pi / 64 = 2 * (8 * Real.pi / 128) := by ring
  rw [harg]
  have h := sin_two_mul_lb (8 * Real.pi / 128) 0.1950104 0.9806460
      (8 * 3.141592 / 128) (8 * 3.141593 / 128)
      (by linarith) (by linarith) (by norm_num) (by norm_num)
      (by norm_num) (by norm_num) (by norm_num) (by norm_num)
  linarith

/-- Numeric lower bound for `sin(9π/64)` via the double angle at `9π/128`. -/
lemma sinLB9 : (0.4272067 : ℝ) ≤ Real.sin (9 * Real.pi / 64) := by
  have hpl := Real.pi_gt_d6
  have hpu := Real.pi_lt_d6
  have harg : (9 : ℝ) * Real.pi / 64 = 2 * (9 * Real.pi / 128) := by ring
  rw [harg]
  have h := sin_two_mul_lb (9 * Real.pi / 128) 0.2189728 0.9754790
      (9 * 3.141592 / 128) (9 * 3.141593 / 128)
      (by linarith) (by linarith) (by norm_num) (by norm_num)
      (by norm_num) (by norm_num) (by norm_num) (by norm_num)
  linarith

/-- Numeric lower bound for `sin(10π/64)` via the double angle at `10π/128`. -/
lemma sinLB10 : (0.4708504 : ℝ) ≤ Real.sin (10 * Real.pi / 64) := by
  have hpl := Real.pi_gt_d6
  have hpu := Real.pi_lt_d6
  have harg : (10 : ℝ) * Real.pi / 64 = 2 * (10 * Real.pi / 128) := by ring
  rw [harg]
  have h := sin_two_mul_lb (10 * Real.pi / 128) 0.2427837 0.9696913
      (10 * 3.141592 / 128) (10 * 3.141593 / 128)
      (by linarith) (by linarith) (by norm_num) (by norm_num)
      (by norm_num) (by norm_num) (by norm_num) (by norm_num)
  linarith

/-- Numeric lower bound for `sin(11π/64)` via the double angle at `11π/128`. -/
lemma sinLB11 : (0.5132810 : ℝ) ≤ Real.sin (11 * Real.pi / 64) := by
  have hpl := Real.pi_gt_d6
  have hpu := Real.pi_lt_d6
  have harg : (11 : ℝ) * Real.pi / 64 = 2 * (11 * Real.pi / 128) := by ring
  rw [harg]
  have h := sin_two_mul_lb (11 * Real.pi / 128) 0.2664240 0.9632785
      (11 * 3.141592 / 128) (11 * 3.141593 / 128)
      (by linarith) (by linarith) (by norm_num) (by norm_num)
      (by norm_num) (by norm_num) (by norm_num) (by norm_num)
  linarith

/-- Numeric lower bound for `sin(12π/64)` via the double angle at `12π/128`. -/
lemma sinLB12 : (0.5543761 : ℝ) ≤ Real.sin (12 * Real.pi / 64) := by
  have hpl := Real.pi_gt_d6
  have hpu := Real.pi_lt_d6
  have harg : (12 : ℝ) * Real.pi / 64 = 2 * (12 * Real.pi / 128) := by ring
  rw [harg]
  have h := sin_two_mul_lb (12 * Real.pi / 128) 0.2898742 0.9562357
      (12 * 3.141592 / 128) (12 * 3.141593 / 128)
      (by linarith) (by linarith) (by norm_num) (by norm_num)
      (by norm_num) (by norm_num) (by norm_num) (by norm_num)
  linarith

/-- Numeric lower bound for `sin(13π/64)` via the double angle at `13π/128`. -/
lemma sinLB13 : (0.5940140 : ℝ) ≤ Real.sin (13 * Real.pi / 64) := by
  have hpl := Real.pi_gt_d6
  have hpu := Real.pi_lt_d6
  have harg : (13 : ℝ) * Real.pi / 64 = 2 * (13 * Real.pi / 128) := by ring
  rw [harg]
  have h := sin_two_mul_lb (13 * Real.pi / 128) 0.3131143 0.9485579
      (13 * 3.141592 / 128) (13 * 3.141593 / 128)
      (by linarith) (by linarith) (by norm_num) (by norm_num)
      (by norm_num) (by norm_num) (by norm_num) (by norm_num)
  linarith

/-- Numeric lower bound for `sin(14π/64)` via the double angle at `14π/128`. -/
lemma sinLB14 : (0.6320738 : ℝ) ≤ Real.sin (14 * Real.pi / 64) := by
  have hpl := Real.pi_gt_d6
  have hpu := Real.pi_lt_d6
  have harg : (14 : ℝ) * Real.pi / 64 = 2 * (14 * Real.pi / 128) := by ring
  rw [harg]
  have h := sin_two_mul_lb (14 * Real.pi / 128) 0.3361239 0.9402394
      (14 * 3.141592 / 128) (14 * 3.141593 / 128)
      (by linarith) (by linarith) (by norm_num) (by norm_num)
      (by norm_num) (by norm_num) (by norm_num) (by norm_num)
  linarith

/-- Numeric lower bound for `sin(15π/64)` via the double angle at `15π/128`. -/
lemma sinLB15 : (0.6684346 : ℝ) ≤ Real.sin (15 * Real.pi / 64) := by
  have hpl := Real.pi_gt_d6
  have hpu := Real.pi_lt_d6
  have harg : (15 : ℝ) * Real.pi / 64 = 2 * (15 * Real.pi / 128) := by ring
  rw [harg]
  have h := sin_two_mul_lb (15 * Real.pi / 128) 0.3588819 0.9312739
      (15 * 3.141592 / 128) (15 * 3.141593 / 128)
      (by linarith) (by linarith) (by norm_num) (by norm_num)
      (by norm_num) (by norm_num) (by norm_num) (by norm_num)
  linarith

/-- Numeric lower bound for `sin(16π/64)` via the double angle at `16π/128`. -/
lemma sinLB16 : (0.7029777 : ℝ) ≤ Real.sin (16 * Real.pi / 64) := by
  have hpl := Real.pi_gt_d6
  have hpu := Real.pi_lt_d6
  have harg : (16 : ℝ) * Real.pi / 64 = 2 * (16 * Real.pi / 128) := by ring
  rw [harg]
  have h := sin_two_mul_lb (16 * Real.pi / 128) 0.3813671 0.9216550
      (16 * 3.141592 / 128) (16 * 3.141593 / 128)
      (by linarith) (by linarith) (by norm_num) (by norm_num)
      (by norm_num) (by norm_num) (by norm_num) (by norm_num)
  linarith

/-- Numeric lower bound for `sin(17π/64)` via the double angle at `17π/128`. -/
lemma sinLB17 : (0.7355852 : ℝ) ≤ Real.sin (17 * Real.pi / 64) := by
  have hpl := Real.pi_gt_d6
  have hpu := Real.pi_lt_d6
  have harg : (17 : ℝ) * Real.pi / 64 = 2 * (17 * Real.pi / 128) := by ring
  rw [harg]
  have h := sin_two_mul_lb (17 * Real.pi / 128) 0.4035577 0.9113756
      (17 * 3.141592 / 128) (17 * 3.141593 / 128)
      (by linarith) (by linarith) (by norm_num) (by norm_num)
      (by norm_num) (by norm_num) (by norm_num) (by norm_num)
  linarith

/-- Numeric lower bound for `sin(18π/64)` via the double angle at `18π/128`. -/
lemma sinLB18 : (0.7661407 : ℝ) ≤ Real.sin (18 * Real.pi / 64) := by
  have hpl := Real.pi_gt_d6
  have hpu := Real.pi_lt_d6
  have harg : (18 : ℝ) * Real.pi / 64 = 2 * (18 * Real.pi / 128) := by ring
  rw [harg]
  have h := sin_two_mul_lb (18 * Real.pi / 128) 0.4254313 0.9004283
      (18 * 3.141592 / 128) (18 * 3.141593 / 128)
      (by linarith) (by linarith) (by norm_num) (by norm_num)
      (by norm_num) (by norm_num) (by norm_num) (by norm_num)
  linarith

/-- Numeric lower bound for `sin(19π/64)` via the double angle at `19π/128`. -/
lemma sinLB19 : (0.7945299 : ℝ) ≤ Real.sin (19 * Real.pi / 64) := by
  have hpl := Real.pi_gt_d6
  have hpu := Real.pi_lt_d6
  have harg : (19 : ℝ) * Real.pi / 64 = 2 * (19 * Real.pi / 128) := by ring
  rw [harg]
  have h := sin_two_mul_lb (19 * Real.pi / 128) 0.4469653 0.8888050
      (19 * 3.141592 / 128) (19 * 3.141593 / 128)
      (by linarith) (by linarith) (by norm_num) (by norm_num)
      (by norm_num) (by norm_num) (by norm_num) (by norm_num)
  linarith

/-- Numeric lower bound for `sin(20π/64)` via the double angle at `20π/128`. -/
lemma sinLB20 : (0.8206408 : ℝ) ≤ Real.sin (20 * Real.pi / 64) := by
  have hpl := Real.pi_gt_d6
  have hpu := Real.pi_lt_d6
  have harg : (20 : ℝ) * Real.pi / 64 = 2 * (20 * Real.pi / 128) := by ring
  rw [harg]
  have h := sin_two_mul_lb (20 * Real.pi / 128) 0.4681365 0.8764974
      (20 * 3.141592 / 128) (20 * 3.141593 / 128)
      (by linarith) (by linarith) (by norm_num) (by norm_num)
      (by norm_num) (by norm_num) (by norm_num) (by norm_num)
  linarith

/-- Numeric lower bound for `sin(21π/64)` via the double angle at `21π/128`. -/
lemma sinLB21 : (0.8443635 : ℝ) ≤ Real.sin (21 * Real.pi / 64) := by
  have hpl := Real.pi_gt_d6
  have hpu := Real.pi_lt_d6
  have harg : (21 : ℝ) * Real.pi / 64 = 2 * (21 * Real.pi / 128) := by ring
  rw [harg]
  have h := sin_two_mul_lb (21 * Real.pi / 128) 0.4889212 0.8634966
      (21 * 3.141592 / 128) (21 * 3.141593 / 128)
      (by linarith) (by linarith) (by norm_num) (by norm_num)
      (by norm_num) (by norm_num) (by norm_num) (by norm_num)
  linarith

/-- Numeric lower bound for `sin(22π/64)` via the double angle at `22π/128`. -/
lemma sinLB22 : (0.8655915 : ℝ) ≤ Real.sin (22 * Real.pi / 64) := by
  have hpl := Real.pi_gt_d6
  have hpu := Real.pi_lt_d6
  have harg : (22 : ℝ) * Real.pi / 64 = 2 * (22 * Real.pi / 128) := by ring
  rw [harg]
  have h := sin_two_mul_lb (22 * Real.pi / 128) 0.5092953 0.8497934
      (22 * 3.141592 / 128) (22 * 3.141593 / 128)
      (by linarith) (by linarith) (by norm_num) (by norm_num)
      (by norm_num) (by norm_num) (by norm_num) (by norm_num)
  linarith

/-- Numeric lower bound for `sin(23π/64)` via the double angle at `23π/128`. -/
lemma sinLB23 : (0.8842216 : ℝ) ≤ Real.sin (23 * Real.pi / 64) := by
  have hpl := Real.pi_gt_d6
  have hpu := Real.pi_lt_d6
  have harg : (23 : ℝ) * Real.pi / 64 = 2 * (23 * Real.pi / 128) := by ring
  rw [harg]
  have h := sin_two_mul_lb (23 * Real.pi / 128) 0.5292344 0.8353781
      (23 * 3.141592 / 128) (23 * 3.141593 / 128)
      (by linarith) (by linarith) (by norm_num) (by norm_num)
      (by norm_num) (by norm_num) (by norm_num) (by norm_num)
  linarith

/-- Numeric lower bound for `sin(24π/64)` via the double angle at `24π/128`. -/
lemma sinLB24 : (0.9001536 : ℝ) ≤ Real.sin (24 * Real.pi / 64) := by
  have hpl := Real.pi_gt_d6
  have hpu := Real.pi_lt_d6
  have harg : (24 : ℝ) * Real.pi / 64 = 2 * (24 * Real.pi / 128) := by ring
  rw [harg]
  have h := sin_two_mul_lb (24 * Real.pi / 128) 0.5487134 0.8202403
      (24 * 3.141592 / 128) (24 * 3.141593 / 128)
      (by linarith) (by linarith) (by norm_num) (by norm_num)
      (by norm_num) (by norm_num) (by norm_num) (by norm_num)
  linarith

/-- Numeric lower bound for `sin(25π/64)` via the double angle at `25π/128`. -/
lemma sinLB25 : (0.9132921 : ℝ) ≤ Real.sin (25 * Real.pi / 64) := by
  have hpl := Real.pi_gt_d6
  have hpu := Real.pi_lt_d6
  have harg : (25 : ℝ) * Real.pi / 64 = 2 * (25 * Real.pi / 128) := by ring
  rw [harg]
  have h := sin_two_mul_lb (25 * Real.pi / 128) 0.5677069 0.8043694
      (25 * 3.141592 / 128) (25 * 3.141593 / 128)
      (by linarith) (by linarith) (by norm_num) (by norm_num)
      (by norm_num) (by norm_num) (by norm_num) (by norm_num)
  linarith

/-- Numeric lower bound for `sin(26π/64)` via the double angle at `26π/128`. -/
lemma sinLB26 : (0.9235458 : ℝ) ≤ Real.sin (26 * Real.pi / 64) := by
  have hpl := Real.pi_gt_d6
  have hpu := Real.pi_lt_d6
  have harg : (26 : ℝ) * Real.pi / 64 = 2 * (26 * Real.pi / 128) := by ring
  rw [harg]
  have h := sin_two_mul_lb (26 * Real.pi / 128) 0.5861890 0.7877543
      (26 * 3.141592 / 128) (26 * 3.141593 / 128)
      (by linarith) (by linarith) (by norm_num) (by norm_num)
      (by norm_num) (by norm_num) (by norm_num) (by norm_num)
  linarith

/-- Numeric lower bound for `sin(27π/64)` via the double angle at `27π/128`. -/
lemma sinLB27 : (0.9308286 : ℝ) ≤ Real.sin (27 * Real.pi / 64) := by
  have hpl := Real.pi_gt_d6
  have hpu := Real.pi_lt_d6
  have harg : (27 : ℝ) * Real.pi / 64 = 2 * (27 * Real.pi / 128) := by ring
  rw [harg]
  have h := sin_two_mul_lb (27 * Real.pi / 128) 0.6041333 0.7703835
      (27 * 3.141592 / 128) (27 * 3.141593 / 128)
      (by linarith) (by linarith) (by norm_num) (by norm_num)
      (by norm_num) (by norm_num) (by norm_num) (by norm_num)
  linarith

/-- Numeric lower bound for `sin(28π/64)` via the double angle at `28π/128`. -/
lemma sinLB28 : (0.9350602 : ℝ) ≤ Real.sin (28 * Real.pi / 64) := by
  have hpl := Real.pi_gt_d6
  have hpu := Real.pi_lt_d6
  have harg : (28 : ℝ) * Real.pi / 64 = 2 * (28 * Real.pi / 128) := by ring
  rw [harg]
  have h := sin_two_mul_lb (28 * Real.pi / 128) 0.6215131 0.7522450
      (28 * 3.141592 / 128) (28 * 3.141593 / 128)
      (by linarith) (by linarith) (by norm_num) (by norm_num)
      (by norm_num) (by norm_num) (by norm_num) (by norm_num)
  linarith

/-- Numeric lower bound for `sin(29π/64)` via the double angle at `29π/128`. -/
lemma sinLB29 : (0.9361656 : ℝ) ≤ Real.sin (29 * Real.pi / 64) := by
  have hpl := Real.pi_gt_d6
  have hpu := Real.pi_lt_d6
  have harg : (29 : ℝ) * Real.pi / 64 = 2 * (29 * Real.pi / 128) := by ring
  rw [harg]
  have h := sin_two_mul_lb (29 * Real.pi / 128) 0.6383010 0.7333262
      (29 * 3.141592 / 128) (29 * 3.141593 / 128)
      (by linarith) (by linarith) (by norm_num) (by norm_num)
      (by norm_num) (by norm_num) (by norm_num) (by norm_num)
  linarith

/-- Numeric lower bound for `sin(30π/64)` via the double angle at `30π/128`. -/
lemma sinLB30 : (0.9340773 : ℝ) ≤ Real.sin (30 * Real.pi / 64) := by
  have hpl := Real.pi_gt_d6
  have hpu := Real.pi_lt_d6
  have harg : (30 : ℝ) * Real.pi / 64 = 2 * (30 * Real.pi / 128) := by ring
  rw [harg]
  have h := sin_two_mul_lb (30 * Real.pi / 128) 0.6544694 0.7136142
      (30 * 3.141592 / 128) (30 * 3.141593 / 128)
      (by linarith) (by linarith) (by norm_num) (by norm_num)
      (by norm_num) (by norm_num) (by norm_num) (by norm_num)
  linarith

/-- Numeric lower bound for `sin(31π/64)` via the double angle at `31π/128`. -/
lemma sinLB31 : (0.9287345 : ℝ) ≤ Real.sin (31 * Real.pi / 64) := by
  have hpl := Real.pi_gt_d6
  have hpu := Real.pi_lt_d6
  have harg : (31 : ℝ) * Real.pi / 64 = 2 * (31 * Real.pi / 128) := by ring
  rw [harg]
  have h := sin_two_mul_lb (31 * Real.pi / 128) 0.6699901 0.6930957
      (31 * 3.141592 / 128) (31 * 3.141593 / 128)
      (by linarith) (by linarith) (by norm_num) (by norm_num)
      (by norm_num) (by norm_num) (by norm_num) (by norm_num)
  linarith

/-- `sin(32π/64) = sin(π/2) = 1`. -/
lemma sinLB32 : (1 : ℝ) ≤ Real.sin (32 * Real.pi / 64) := by
  have harg : (32 : ℝ) * Real.pi / 64 = Real.pi / 2 := by ring
  rw [harg, Real.sin_pi_div_two]

/-- `sin(33π/64) = sin(31π/64)` by the symmetry `sin(π - x) = sin x`. -/
lemma sinLB33 : (0.9287345 : ℝ) ≤ Real.sin (33 * Real.pi / 64) := by
  have harg : (33 : ℝ) * Real.pi / 64 = Real.pi - (31 * Real.pi / 64) := by ring
  rw [harg, Real.sin_pi_sub]
  exact sinLB31

/-- `sin(34π/64) = sin(30π/64)` by the symmetry `sin(π - x) = sin x`. -/
lemma sinLB34 : (0.9340773 : ℝ) ≤ Real.sin (34 * Real.pi / 64) := by
  have harg : (34 : ℝ) * Real.pi / 64 = Real.pi - (30 * Real.pi / 64) := by ring
  rw [harg, Real.sin_pi_sub]
  exact sinLB30

/-- `sin(35π/64) = sin(29π/64)` by the symmetry `sin(π - x) = sin x`. -/
lemma sinLB35 : (0.9361656 : ℝ) ≤ Real.sin (35 * Real.pi / 64) := by
  have harg : (35 : ℝ) * Real.pi / 64 = Real.pi - (29 * Real.pi / 64) := by ring
  rw [harg, Real.sin_pi_sub]
  exact sinLB29

/-- `sin(36π/64) = sin(28π/64)` by the symmetry `sin(π - x) = sin x`. -/
lemma sinLB36 : (0.9350602 : ℝ) ≤ Real.sin (36 * Real.pi / 64) := by
  have harg : (36 : ℝ) * Real.pi / 64 = Real.pi - (28 * Real.pi / 64) := by ring
  rw [harg, Real.sin_pi_sub]
  exact sinLB28

/-- `sin(37π/64) = sin(27π/64)` by the symmetry `sin(π - x) = sin x`. -/
lemma sinLB37 : (0.9308286 : ℝ) ≤ Real.sin (37 * Real.pi / 64) := by
  have harg : (37 : ℝ) * Real.pi / 64 = Real.pi - (27 * Real.pi / 64) := by ring
  rw [harg, Real.sin_pi_sub]
  exact sinLB27

/-- `sin(38π/64) = sin(26π/64)` by the symmetry `sin(π - x) = sin x`. -/
lemma sinLB38 : (0.9235458 : ℝ) ≤ Real.sin (38 * Real.pi / 64) := by
  have harg : (38 : ℝ) * Real.pi / 64 = Real.pi - (26 * Real.pi / 64) := by ring
  rw [harg, Real.sin_pi_sub]
  exact sinLB26

/-- `sin(39π/64) = sin(25π/64)` by the symmetry `sin(π - x) = sin x`. -/
lemma sinLB39 : (0.9132921 : ℝ) ≤ Real.sin (39 * Real.pi / 64) := by
  have harg : (39 : ℝ) * Real.pi / 64 = Real.pi - (25 * Real.pi / 64) := by ring
  rw [harg, Real.sin_pi_sub]
  exact sinLB25

/-- `sin(40π/64) = sin(24π/64)` by the symmetry `sin(π - x) = sin x`. -/
lemma sinLB40 : (0.9001536 : ℝ) ≤ Real.sin (40 * Real.pi / 64) := by
  have harg : (40 : ℝ) * Real.pi / 64 = Real.pi - (24 * Real.pi / 64) := by ring
  rw [harg, Real.sin_pi_sub]
  exact sinLB24

/-- `sin(41π/64) = sin(23π/64)` by the symmetry `sin(π - x) = sin x`. -/
lemma sinLB41 : (0.8842216 : ℝ) ≤ Real.sin (41 * Real.pi / 64) := by
  have harg : (41 : ℝ) * Real.pi / 64 = Real.pi - (23 * Real.pi / 64) := by ring
  rw [harg, Real.sin_pi_sub]
  exact sinLB23

/-- `sin(42π/64) = sin(22π/64)` by the symmetry `sin(π - x) = sin x`. -/
lemma sinLB42 : (0.8655915 : ℝ) ≤ Real.sin (42 * Real.pi / 64) := by
  have harg : (42 : ℝ) * Real.pi / 64 = Real.pi - (22 * Real.pi / 64) := by ring
  rw [harg, Real.sin_pi_sub]
  exact sinLB22

/-- `sin(43π/64) = sin(21π/64)` by the symmetry `sin(π - x) = sin x`. -/
lemma sinLB43 : (0.8443635 : ℝ) ≤ Real.sin (43 * Real.pi / 64) := by
  have harg : (43 : ℝ) * Real.pi / 64 = Real.pi - (21 * Real.pi / 64) := by ring
  rw [harg, Real.sin_pi_sub]
  exact sinLB21

/-- `sin(44π/64) = sin(20π/64)` by the symmetry `sin(π - x) = sin x`. -/
lemma sinLB44 : (0.8206408 : ℝ) ≤ Real.sin (44 * Real.pi / 64) := by
  have harg : (44 : ℝ) * Real.pi / 64 = Real.pi - (20 * Real.pi / 64) := by ring
  rw [harg, Real.sin_pi_sub]
  exact sinLB20

/-- `sin(45π/64) = sin(19π/64)` by the symmetry `sin(π - x) = sin x`. -/
lemma sinLB45 : (0.7945299 : ℝ) ≤ Real.sin (45 * Real.pi / 64) := by
  have harg : (45 : ℝ) * Real.pi / 64 = Real.pi - (19 * Real.pi / 64) := by ring
  rw [harg, Real.sin_pi_sub]
  exact sinLB19

/-- `sin(46π/64) = sin(18π/64)` by the symmetry `sin(π - x) = sin x`. -/
lemma sinLB46 : (0.7661407 : ℝ) ≤ Real.sin (46 * Real.pi / 64) := by
  have harg : (46 : ℝ) * Real.pi / 64 = Real.pi - (18 * Real.pi / 64) := by ring
  rw [harg, Real.sin_pi_sub]
  exact sinLB18

/-- `sin(47π/64) = sin(17π/64)` by the symmetry `sin(π - x) = sin x`. -/
lemma sinLB47 : (0.7355852 : ℝ) ≤ Real.sin (47 * Real.pi / 64) := by
  have harg : (47 : ℝ) * Real.pi / 64 = Real.pi - (17 * Real.pi / 64) := by ring
  rw [harg, Real.sin_pi_sub]
  exact sinLB17

/-- `sin(48π/64) = sin(16π/64)` by the symmetry `sin(π - x) = sin x`. -/
lemma sinLB48 : (0.7029777 : ℝ) ≤ Real.sin (48 * Real.pi / 64) := by
  have harg : (48 : ℝ) * Real.pi / 64 = Real.pi - (16 * Real.pi / 64) := by ring
  rw [harg, Real.sin_pi_sub]
  exact sinLB16

/-- `sin(49π/64) = sin(15π/64)` by the symmetry `sin(π - x) = sin x`. -/
lemma sinLB49 : (0.6684346 : ℝ) ≤ Real.sin (49 * Real.pi / 64) := by
  have harg : (49 : ℝ) * Real.pi / 64 = Real.pi - (15 * Real.pi / 64) := by ring
  rw [harg, Real.sin_pi_sub]
  exact sinLB15

/-- `sin(50π/64) = sin(14π/64)` by the symmetry `sin(π - x) = sin x`. -/
lemma sinLB50 : (0.6320738 : ℝ) ≤ Real.sin (50 * Real.pi / 64) := by
  have harg : (50 : ℝ) * Real.pi / 64 = Real.pi - (14 * Real.pi / 64) := by ring
  rw [harg, Real.sin_pi_sub]
  exact sinLB14

/-- `sin(51π/64) = sin(13π/64)` by the symmetry `sin(π - x) = sin x`. -/
lemma sinLB51 : (0.5940140 : ℝ) ≤ Real.sin (51 * Real.pi / 64) := by
  have harg : (51 : ℝ) * Real.pi / 64 = Real.pi - (13 * Real.pi / 64) := by ring
  rw [harg, Real.sin_pi_sub]
  exact sinLB13

/-- `sin(52π/64) = sin(12π/64)` by the symmetry `sin(π - x) = sin x`. -/
lemma sinLB52 : (0.5543761 : ℝ) ≤ Real.sin (52 * Real.pi / 64) := by
  have harg : (52 : ℝ) * Real.pi / 64 = Real.pi - (12 * Real.pi / 64) := by ring
  rw [harg, Real.sin_pi_sub]
  exact sinLB12

/-- `sin(53π/64) = sin(11π/64)` by the symmetry `sin(π - x) = sin x`. -/
lemma sinLB53 : (0.5132810 : ℝ) ≤ Real.sin (53 * Real.pi / 64) := by
  have harg : (53 : ℝ) * Real.pi / 64 = Real.pi - (11 * Real.pi / 64) := by ring
  rw [harg, Real.sin_pi_sub]
  exact sinLB11

/-- `sin(54π/64) = sin(10π/64)` by the symmetry `sin(π - x) = sin x`. -/
lemma sinLB54 : (0.4708504 : ℝ) ≤ Real.sin (54 * Real.pi / 64) := by
  have harg : (54 : ℝ) * Real.pi / 64 = Real.pi - (10 * Real.pi / 64) := by ring
  rw [harg, Real.sin_pi_sub]
  exact sinLB10

/-- `sin(55π/64) = sin(9π/64)` by the symmetry `sin(π - x) = sin x`. -/
lemma sinLB55 : (0.4272067 : ℝ) ≤ Real.sin (55 * Real.pi / 64) := by
  have harg : (55 : ℝ) * Real.pi / 64 = Real.pi - (9 * Real.pi / 64) := by ring
  rw [harg, Real.sin_pi_sub]
  exact sinLB9

/-- `sin(56π/64) = sin(8π/64)` by the symmetry `sin(π - x) = sin x`. -/
lemma sinLB56 : (0.3824723 : ℝ) ≤ Real.sin (56 * Real.pi / 64) := by
  have harg : (56 : ℝ) * Real.pi / 64 = Real.pi - (8 * Real.pi / 64) := by ring
  rw [harg, Real.sin_pi_sub]
  exact sinLB8

/-- `sin(57π/64) = sin(7π/64)` by the symmetry `sin(π - x) = sin x`. -/
lemma sinLB57 : (0.3367699 : ℝ) ≤ Real.sin (57 * Real.pi / 64) := by
  have harg : (57 : ℝ) * Real.pi / 64 = Real.pi - (7 * Real.pi / 64) := by ring
  rw [harg, Real.sin_pi_sub]
  exact sinLB7

/-- `sin(58π/64) = sin(6π/64)` by the symmetry `sin(π - x) = sin x`. -/
lemma sinLB58 : (0.2902219 : ℝ) ≤ Real.sin (58 * Real.pi / 64) := by
  have harg : (58 : ℝ) * Real.pi / 64 = Real.pi - (6 * Real.pi / 64) := by ring
  rw [harg, Real.sin_pi_sub]
  exact sinLB6

/-- `sin(59π/64) = sin(5π/64)` by the symmetry `sin(π - x) = sin x`. -/
lemma sinLB59 : (0.2429509 : ℝ) ≤ Real.sin (59 * Real.pi / 64) := by
  have harg : (59 : ℝ) * Real.pi / 64 = Real.pi - (5 * Real.pi / 64) := by ring
  rw [harg, Real.sin_pi_sub]
  exact sinLB5

/-- `sin(60π/64) = sin(4π/64)` by the symmetry `sin(π - x) = sin x`. -/
lemma sinLB60 : (0.1950787 : ℝ) ≤ Real.sin (60 * Real.pi / 64) := by
  have harg : (60 : ℝ) * Real.pi / 64 = Real.pi - (4 * Real.pi / 64) := by ring
  rw [harg, Real.sin_pi_sub]
  exact sinLB4

/-- `sin(61π/64) = sin(3π/64)` by the symmetry `sin(π - x) = sin x`. -/
lemma sinLB61 : (0.1467267 : ℝ) ≤ Real.sin (61 * Real.pi / 64) := by
  have harg : (61 : ℝ) * Real.pi / 64 = Real.pi - (3 * Real.pi / 64) := by ring
  rw [harg, Real.sin_pi_sub]
  exact sinLB3

/-- `sin(62π/64) = sin(2π/64)` by the symmetry `sin(π - x) = sin x`. -/
lemma sinLB62 : (0.0980163 : ℝ) ≤ Real.sin (62 * Real.pi / 64) := by
  have harg : (62 : ℝ) * Real.pi / 64 = Real.pi - (2 * Real.pi / 64) := by ring
  rw [harg, Real.sin_pi_sub]
  exact sinLB2

/-- `sin(63π/64) = sin(1π/64)` by the symmetry `sin(π - x) = sin x`. -/
lemma sinLB63 : (0.0490676 : ℝ) ≤ Real.sin (63 * Real.pi / 64) := by
  have harg : (63 : ℝ) * Real.pi / 64 = Real.pi - (Real.pi / 64) := by ring
  rw [harg, Real.sin_pi_sub]
  exact sinLB1

set_option maxRecDepth 8000 in
/-- The Gibbs partial sum `Σ sin(kπ/64)/k` for `k = 1..63` exceeds 1.58
(in fact it is about 1.8273, overshooting `π/2 ≈ 1.5708`). -/
lemma gibbs_sum_lb :
    (1.58 : ℝ) < ∑ k in Finset.range 63,
      Real.sin (((k : ℝ) + 1) * Real.pi / 64) / ((k : ℝ) + 1) := by
  simp only [Finset.sum_range_succ, Finset.sum_range_zero]
  push_cast
  norm_num
  linarith [sinLB1, sinLB2, sinLB3, sinLB4, sinLB5, sinLB6, sinLB7, sinLB8, sinLB9, sinLB10, sinLB11, sinLB12, sinLB13, sinLB14, sinLB15, sinLB16, sinLB17, sinLB18, sinLB19, sinLB20, sinLB21, sinLB22, sinLB23, sinLB24, sinLB25, sinLB26, sinLB27, sinLB28, sinLB29, sinLB30, sinLB31, sinLB32, sinLB33, sinLB34, sinLB35, sinLB36, sinLB37, sinLB38, sinLB39, sinLB40, sinLB41, sinLB42, sinLB43, sinLB44, sinLB45, sinLB46, sinLB47, sinLB48, sinLB49, sinLB50, sinLB51, sinLB52, sinLB53, sinLB54, sinLB55, sinLB56, sinLB57, sinLB58, sinLB59, sinLB60, sinLB61, sinLB62, sinLB63]

/-- The saw table entry at index 1040 is the negated, `2/π`-scaled Gibbs
partial sum: each harmonic argument `2π(k+1)·1040/2048` is
`(k+1)π/64 + (k+1)π`, and `sin(x + nπ) = (-1)^n sin x` folds the alternating
signs of the saw series into a uniform minus. -/
lemma sawTable_1040_eq :
    sawTable 1040 =
      -(∑ k in Finset.range 63,
          Real.sin (((k : ℝ) + 1) * Real.pi / 64) / ((k : ℝ) + 1)) * (2 / Real.pi) := by
  unfold sawTable
  have hterm : ∀ k ∈ Finset.range 63,
      (-1 : ℝ) ^ (k + 1 + 1) *
          Real.sin (2 * Real.pi * ((k : ℝ) + 1) * tablePhase 1040) / ((k : ℝ) + 1) =
        -(Real.sin (((k : ℝ) + 1) * Real.pi / 64) / ((k : ℝ) + 1)) := by
    intro k _
    have harg : 2 * Real.pi * ((k : ℝ) + 1) * tablePhase 1040 =
        ((k : ℝ) + 1) * Real.pi / 64 + ((k + 1 : ℕ) : ℝ) * Real.pi := by
      unfold tablePhase WAVETABLE_SIZE
      push_cast
      ring
    rw [harg, Real.sin_add_nat_mul_pi]
    have hsign : (-1 : ℝ) ^ (k + 1 + 1) *
        ((-1) ^ (k + 1) * Real.sin (((k : ℝ) + 1) * Real.pi / 64)) =
        -Real.sin (((k : ℝ) + 1) * Real.pi / 64) := by
      rw [← mul_assoc, ← pow_add]
      have hodd : (-1 : ℝ) ^ (k + 1 + 1 + (k + 1)) = -1 :=
        Odd.neg_one_pow ⟨k + 1, by ring⟩
      rw [hodd]
      ring
    rw [hsign, neg_div]
  rw [Finset.sum_congr rfl hterm, Finset.sum_neg_distrib]

/-- The Gibbs overshoot: the saw table entry at index 1040 lies below −1. -/
lemma sawTable_1040_lt : sawTable 1040 < -1 := by
  rw [sawTable_1040_eq]
  have hS := gibbs_sum_lb
  have hpi := Real.pi_pos
  have hpiu := Real.pi_lt_d6
  set S := ∑ k in Finset.range 63,
    Real.sin (((k : ℝ) + 1) * Real.pi / 64) / ((k : ℝ) + 1) with hSdef
  have h1 : -S * (2 / Real.pi) = -(2 * S / Real.pi) := by ring
  rw [h1, neg_lt_neg_iff, lt_div_iff hpi]
  linarith

/-- A fresh oscillator with the default patch: saw wavetable, unit level,
zero phase, no octave/semitone/detune offsets. -/
noncomputable def sawOsc : Oscillator :=
  { waveform := .saw, octave := 0, semitone := 0, detune := 0, level := 1,
    pulse_width := 0.5, phase := 0 }

/-- C3 (counterexample): rendering two samples of the default saw oscillator
(level 1, phase 0) at base frequency `44100 * 1040/2048` puts the second
sample exactly on table index 1040, whose value is below −1: the output
leaves the claimed interval `[-level, +level]`. -/
theorem osc_render_exceeds_level :
    ¬ (∀ v ∈ (sawOsc.render (44100 * 1040 / 2048) 2 none).1,
        -sawOsc.level ≤ v ∧ v ≤ sawOsc.level) := by
  intro hall
  have hfreq : sawOsc.freqOf (44100 * 1040 / 2048) = 44100 * 1040 / 2048 := by
    unfold Oscillator.freqOf sawOsc
    norm_num [Real.rpow_zero]
  have hinc : ∀ i : ℕ, sawOsc.increments (44100 * 1040 / 2048) none i =
      1040 / 2048 := by
    intro i
    unfold Oscillator.increments
    rw [hfreq, SAMPLE_RATE]
    norm_num
  have hph : sawOsc.phases (44100 * 1040 / 2048) none 1 = 1040 / 2048 := by
    rw [phases_eq]
    have hsum : ∑ j in Finset.range 1,
        sawOsc.increments (44100 * 1040 / 2048) none j = 1040 / 2048 := by
      rw [Finset.sum_range_one, hinc 0]
    rw [hsum]
    have hphase : sawOsc.phase = 0 := rfl
    rw [hphase, zero_add]
    rw [Int.fract_eq_self.mpr ⟨by norm_num, by norm_num⟩]
  have hlook : tableLookup .saw ((1040 : ℝ) / 2048) = sawTable 1040 := by
    simp only [tableLookup]
    have h1 : (1040 : ℝ) / 2048 * (WAVETABLE_SIZE : ℝ) = 1040 := by
      norm_num [WAVETABLE_SIZE]
    rw [h1]
    have h2 : ⌊(1040 : ℝ)⌋ = 1040 := by norm_num
    rw [h2]
    norm_num [WAVETABLE_SIZE, tableOf]
    rfl
  have hmem : sawTable 1040 ∈ (sawOsc.render (44100 * 1040 / 2048) 2 none).1 := by
    unfold Oscillator.render
    rw [if_neg (by norm_num [sawOsc] : ¬ sawOsc.level ≤ 0)]
    rw [List.mem_map]
    refine ⟨1, List.mem_range.mpr (by norm_num), ?_⟩
    rw [show sawOsc.waveform = Waveform.saw from rfl, hph, hlook,
      show sawOsc.level = (1 : ℝ) from rfl, mul_one]
  have hb := hall _ hmem
  have hlt := sawTable_1040_lt
  have hlev : sawOsc.level = 1 := rfl
  rw [hlev] at hb
  linarith [hb.1]

end Voog
